import Mathlib

/-!
# symtab: a symbol interning table

A shallow embedding of `symtab.go` and a verification of its contract.

Machine integers are unbounded `Nat`/`Int` values with the wrap-around of the Go
type made explicit: `uint64` values are naturals reduced modulo `2^64`, `int64`
values are integers wrapped into `[-2^63, 2^63)`, and a `uint16` is a natural
that callers supply below `2^16`. The package variable `maxNum` (the ordinal
ceiling, changed only by tests) is an explicit parameter of every function
that reads it. A Go map is an association list with at most one entry per key
once it is built by `GoMap.set` from the empty map.

Two levels describe a table. `SymbolTable` is a table whose two maps are
allocated, as `NewSymbolTable` makes them; `SymbolTable.add` is the method on
such a table, where no map assignment can panic. `TableValue` is any value of
the Go struct, the zero value with its nil maps included; `TableValue.add` is
the method on any such value, with the panic of an assignment to a nil map as
an outcome. `tableValue_add_toValue` shows that the two agree on every table
with allocated maps.
-/

namespace Symtab

/-! ## Constants -/

def flagLen : Nat := 16

def numLen : Nat := 64 - flagLen

/-- The Go constant `math.MaxUint64`. -/
def maxUint64 : Nat := 2 ^ 64 - 1

def numMask : Nat := maxUint64 >>> flagLen

def initNum : Int := 1

/-- A symbol is a `uint64`. -/
abbrev Symbol := Nat

def ZeroSymbol : Symbol := 0

def MaxNum : Int := ((maxUint64 >>> flagLen : Nat) : Int)

/-! ## Integer conversions of Go -/

/-- The conversion `uint64(n)` of an `int64` value: reduction modulo `2^64`. -/
def uint64OfInt64 (n : Int) : Nat := (n % 2 ^ 64).toNat

/-- The conversion `int64(n)` of a `uint64` value: two's complement. -/
def int64OfUint64 (n : Nat) : Int :=
  if n % 2 ^ 64 < 2 ^ 63 then ((n % 2 ^ 64 : Nat) : Int) else ((n % 2 ^ 64 : Nat) : Int) - 2 ^ 64

/-- The conversion `uint16(n)` of a `uint64` value: truncation to 16 bits. -/
def uint16OfUint64 (n : Nat) : Nat := n % 2 ^ 16

/-- Wrap an integer into the `int64` range, as Go arithmetic on `int64` does. -/
def wrapInt64 (n : Int) : Int := (n + 2 ^ 63) % 2 ^ 64 - 2 ^ 63

/-! ## Errors -/

/-- The three sentinel errors of the package, and the wrapper built by
`fmt.Errorf("failed to add %#v: %w", str, err)`, which carries the offending
string and the wrapped error. -/
inductive Error where
  | errEmptyString : Error
  | errSymbolCountLimitReached : Error
  | errStringAlreadyAdded : Error
  | failedToAdd (str : String) (err : Error) : Error
  deriving DecidableEq, Repr

/-- The `Unwrap` method: only the `%w` wrapper has a wrapped error. -/
def Error.unwrap : Error → Option Error
  | .failedToAdd _ err => some err
  | _ => none

/-- The test `errors.Is(err, target)`: `target` occurs on the unwrap chain of `err`.
Errors are compared by their content. Go compares the pointers of two `%w` wrappers, so
the two agree when `target` is one of the three sentinel errors, the only targets used
below. -/
def errorsIs : Error → Error → Bool
  | .failedToAdd str err, target =>
      decide (Error.failedToAdd str err = target) || errorsIs err target
  | e, target => decide (e = target)

/-! ## Symbols -/

/-- The function `newSymbol`: the returned pair is `(Symbol, error)`, the error
being `none` for Go's `nil`. -/
def newSymbol (maxNum : Int) (num : Int) (flags : Nat) : Symbol × Option Error :=
  if num > maxNum then
    (0, some Error.errSymbolCountLimitReached)
  else
    (((flags <<< numLen) % 2 ^ 64) ||| uint64OfInt64 num, none)

/-- The method `Symbol.Flags`. -/
def Symbol.Flags (s : Symbol) : Nat := uint16OfUint64 (s >>> numLen)

/-- The method `Symbol.Num`. -/
def Symbol.Num (s : Symbol) : Int := int64OfUint64 (s &&& numMask)

/-! ## Go maps -/

/-- A Go map as an association list. -/
abbrev GoMap (K V : Type) := List (K × V)

/-- The two-valued index expression `v, ok := m[k]`, as an option. -/
def GoMap.get {K V : Type} [DecidableEq K] : GoMap K V → K → Option V
  | [], _ => none
  | (k', v) :: m, k => if k = k' then some v else GoMap.get m k

/-- The assignment `m[k] = v`: overwrite the entry of `k`, or add one. -/
def GoMap.set {K V : Type} [DecidableEq K] : GoMap K V → K → V → GoMap K V
  | [], k, v => [(k, v)]
  | (k', v') :: m, k, v => if k = k' then (k, v) :: m else (k', v') :: GoMap.set m k v

/-- The builtin `len(m)`. -/
def GoMap.len {K V : Type} (m : GoMap K V) : Nat := List.length m

/-! ## The symbol table -/

/-- A table whose two maps are allocated, as `NewSymbolTable` makes them. -/
structure SymbolTable where
  str2Sym : GoMap String Symbol
  sym2Str : GoMap Symbol String
  nextNum : Int
  deriving DecidableEq, Repr

/-- The constructor `NewSymbolTable`: two empty maps and the counter at `initNum`. -/
def NewSymbolTable : SymbolTable :=
  { str2Sym := [], sym2Str := [], nextNum := initNum }

/-- What a call of `add` leaves behind: the two returned values and the table
after the call. -/
structure AddResult where
  sym : Symbol
  err : Option Error
  tab : SymbolTable
  deriving DecidableEq, Repr

/-- The method `SymbolTable.add` on a table whose maps are allocated, where neither map
assignment can panic. `TableValue.add` is the method on any value of the struct. -/
def SymbolTable.add (maxNum : Int) (t : SymbolTable) (str : String) (flags : Nat) : AddResult :=
  if str = "" then
    { sym := ZeroSymbol, err := some Error.errEmptyString, tab := t }
  else if (GoMap.get t.str2Sym str).isSome then
    { sym := ZeroSymbol, err := some (Error.failedToAdd str Error.errStringAlreadyAdded), tab := t }
  else
    match newSymbol maxNum t.nextNum flags with
    | (_, some err) => { sym := ZeroSymbol, err := some err, tab := t }
    | (sym, none) =>
        { sym := sym
          err := none
          tab :=
            { nextNum := wrapInt64 (t.nextNum + 1)
              str2Sym := GoMap.set t.str2Sym str sym
              sym2Str := GoMap.set t.sym2Str sym str } }

/-- The method `SymbolTable.toString`; a miss yields the zero value `""`. -/
def SymbolTable.toString (t : SymbolTable) (sym : Symbol) : String × Bool :=
  match GoMap.get t.sym2Str sym with
  | some str => (str, true)
  | none => ("", false)

/-- The method `SymbolTable.toSymbol`; a miss yields the zero value `0`. -/
def SymbolTable.toSymbol (t : SymbolTable) (str : String) : Symbol × Bool :=
  match GoMap.get t.str2Sym str with
  | some sym => (sym, true)
  | none => (0, false)

/-! ## Table values with nil maps

A map field of the struct `SymbolTable` can be nil: the zero value `SymbolTable{}`,
which any client of the package can build, has two nil maps and the counter 0. Reading
a nil map finds nothing; assigning to an entry of a nil map panics. -/

/-- A map value of Go: the nil map, or a map allocated by `make`. -/
inductive MapValue (K V : Type) where
  | nilMap : MapValue K V
  | made (m : GoMap K V) : MapValue K V
  deriving DecidableEq, Repr

/-- The two-valued index expression `v, ok := m[k]` on any map value: a nil map has no
entry. -/
def MapValue.get {K V : Type} [DecidableEq K] : MapValue K V → K → Option V
  | .nilMap, _ => none
  | .made m, k => GoMap.get m k

/-- The assignment `m[k] = v` on any map value; `none` is the panic of an assignment to
an entry of a nil map. -/
def MapValue.set {K V : Type} [DecidableEq K] : MapValue K V → K → V → Option (MapValue K V)
  | .nilMap, _, _ => none
  | .made m, k, v => some (.made (GoMap.set m k v))

/-- Any value of the struct `SymbolTable`. -/
structure TableValue where
  str2Sym : MapValue String Symbol
  sym2Str : MapValue Symbol String
  nextNum : Int
  deriving DecidableEq, Repr

/-- The zero value `SymbolTable{}`: two nil maps and the counter 0. -/
def TableValue.zero : TableValue :=
  { str2Sym := MapValue.nilMap, sym2Str := MapValue.nilMap, nextNum := 0 }

/-- A table with allocated maps, as a value of the struct. -/
def SymbolTable.toValue (t : SymbolTable) : TableValue :=
  { str2Sym := MapValue.made t.str2Sym, sym2Str := MapValue.made t.sym2Str,
    nextNum := t.nextNum }

/-- How a call of `add` ends on any value of the struct: it returns a symbol and an error
and leaves a table, or it panics and leaves the table as the statements before the panic
made it. -/
inductive AddOutcome where
  | returned (sym : Symbol) (err : Option Error) (tab : TableValue) : AddOutcome
  | panicked (tab : TableValue) : AddOutcome
  deriving DecidableEq, Repr

/-- The error a call returned, when it returned a non-nil one. -/
def AddOutcome.error : AddOutcome → Option Error
  | .returned _ err _ => err
  | .panicked _ => none

/-- The call returned with a nil error. -/
def AddOutcome.succeeded : AddOutcome → Bool
  | .returned _ none _ => true
  | _ => false

/-- The method `SymbolTable.add` on any value of the struct, statement by statement: the
two tests, `newSymbol`, the increment of the counter, then the two map assignments, each
of which panics on a nil map. -/
def TableValue.add (maxNum : Int) (t : TableValue) (str : String) (flags : Nat) : AddOutcome :=
  if str = "" then
    AddOutcome.returned ZeroSymbol (some Error.errEmptyString) t
  else if (MapValue.get t.str2Sym str).isSome then
    AddOutcome.returned ZeroSymbol (some (Error.failedToAdd str Error.errStringAlreadyAdded)) t
  else
    match newSymbol maxNum t.nextNum flags with
    | (_, some err) => AddOutcome.returned ZeroSymbol (some err) t
    | (sym, none) =>
        let t1 : TableValue := { t with nextNum := wrapInt64 (t.nextNum + 1) }
        match MapValue.set t1.str2Sym str sym with
        | none => AddOutcome.panicked t1
        | some m1 =>
            let t2 : TableValue := { t1 with str2Sym := m1 }
            match MapValue.set t2.sym2Str sym str with
            | none => AddOutcome.panicked t2
            | some m2 => AddOutcome.returned sym none { t2 with sym2Str := m2 }

/-! ## Readers and writers

The structs `reader` and `writer` hold a pointer `*SymbolTable`. A pointer is an
address, the tables live in a heap, and a method called through a pointer
takes the heap and returns its result with the heap after the call; the
outcome is `none` when the pointer refers to no table. -/

/-- A pointer `*SymbolTable`: the address of a table in the heap. -/
abbrev Ptr := Nat

/-- The heap: the table stored at each allocated address. -/
abbrev Heap := GoMap Ptr SymbolTable

/-- The struct `reader`. -/
structure reader where
  tab : Ptr
  deriving DecidableEq, Repr

/-- The struct `writer`. -/
structure writer where
  tab : Ptr
  deriving DecidableEq, Repr

/-- The method `reader.ToString`: the call `r.tab.toString(sym)`. -/
def reader.ToString (r : reader) (sym : Symbol) (h : Heap) : Option ((String × Bool) × Heap) :=
  match GoMap.get h r.tab with
  | none => none
  | some t => some (SymbolTable.toString t sym, h)

/-- The method `reader.ToSymbol`: the call `r.tab.toSymbol(str)`. -/
def reader.ToSymbol (r : reader) (str : String) (h : Heap) : Option ((Symbol × Bool) × Heap) :=
  match GoMap.get h r.tab with
  | none => none
  | some t => some (SymbolTable.toSymbol t str, h)

/-- The method `writer.Add`: the call `w.tab.add(str, flags)`, which updates the table
that `w.tab` points to. When the pointer refers to no table, the call still returns
`errEmptyString` for the empty string, which `add` tests before it reads the table, and
panics otherwise. -/
def writer.Add (maxNum : Int) (w : writer) (str : String) (flags : Nat) (h : Heap) :
    Option ((Symbol × Option Error) × Heap) :=
  match GoMap.get h w.tab with
  | none => if str = "" then some ((ZeroSymbol, some Error.errEmptyString), h) else none
  | some t =>
      let r := SymbolTable.add maxNum t str flags
      some ((r.sym, r.err), GoMap.set h w.tab r.tab)

/-- The method `SymbolTable.Reader` of the table at address `t`. -/
def SymbolTable.Reader (t : Ptr) : reader := { tab := t }

/-- The method `SymbolTable.Writer` of the table at address `t`. -/
def SymbolTable.Writer (t : Ptr) : writer := { tab := t }

/-! ## Sequences of calls -/

/-- A caller issuing the calls `add(str, flags)` of a list one after the other:
the result of every call, in call order, and the final table. -/
def addAll (maxNum : Int) : SymbolTable → List (String × Nat) → List AddResult × SymbolTable
  | t, [] => ([], t)
  | t, (str, flags) :: calls =>
      let r := SymbolTable.add maxNum t str flags
      let rest := addAll maxNum r.tab calls
      (r :: rest.1, rest.2)

/-- The tables reachable from `NewSymbolTable` by calls of `add`. -/
inductive Reachable (maxNum : Int) : SymbolTable → Prop where
  | fresh : Reachable maxNum NewSymbolTable
  | step {t : SymbolTable} (str : String) (flags : Nat) :
      Reachable maxNum t → Reachable maxNum (SymbolTable.add maxNum t str flags).tab

/-! ## Names used by the proofs -/

/-- The symbol a successful `add` packs. -/
def packed (t : SymbolTable) (flags : Nat) : Symbol :=
  ((flags <<< numLen) % 2 ^ 64) ||| uint64OfInt64 t.nextNum

/-- The table a successful `add` leaves. -/
def inserted (t : SymbolTable) (str : String) (flags : Nat) : SymbolTable :=
  { nextNum := wrapInt64 (t.nextNum + 1)
    str2Sym := GoMap.set t.str2Sym str (packed t flags)
    sym2Str := GoMap.set t.sym2Str (packed t flags) str }

/-- The results of the calls that returned a nil error, in call order. -/
def successes (rs : List AddResult) : List AddResult :=
  rs.filter (fun r => decide (r.err = none))

/-- The invariant of the tables reachable under a ceiling that fits the 48 ordinal
bits: the counter is one more than the number of entries, the two indices mirror
each other, and every issued ordinal lies between 1 and the counter. -/
structure Inv (maxNum : Int) (t : SymbolTable) : Prop where
  one_le : 1 ≤ t.nextNum
  le_ceiling : t.nextNum = 1 ∨ t.nextNum ≤ maxNum + 1
  count : t.nextNum = 1 + (GoMap.len t.str2Sym : Int)
  len_eq : GoMap.len t.sym2Str = GoMap.len t.str2Sym
  fwd : ∀ s y, GoMap.get t.str2Sym s = some y → GoMap.get t.sym2Str y = some s
  bwd : ∀ y s, GoMap.get t.sym2Str y = some s → GoMap.get t.str2Sym s = some y
  num_lt : ∀ y s, GoMap.get t.sym2Str y = some s → 1 ≤ Symbol.Num y ∧ Symbol.Num y < t.nextNum
  no_empty : GoMap.get t.str2Sym "" = none

/-- The invariant of the tables reachable under any ceiling below the largest
`int64`: the counter stays positive and never wraps, and neither the empty string
nor the zero symbol is a key. -/
structure InvWide (t : SymbolTable) : Prop where
  one_le : 1 ≤ t.nextNum
  lt_top : t.nextNum < 2 ^ 63
  no_empty : GoMap.get t.str2Sym "" = none
  no_zero : GoMap.get t.sym2Str ZeroSymbol = none

/-! ## Lemmas on Go maps -/

theorem GoMap.get_set_self {K V : Type} [DecidableEq K] (m : GoMap K V) (k : K) (v : V) :
    GoMap.get (GoMap.set m k v) k = some v := by
  induction m with
  | nil => simp [GoMap.set, GoMap.get]
  | cons p m ih =>
    obtain ⟨k', v'⟩ := p
    by_cases h : k = k'
    · simp [GoMap.set, GoMap.get, h]
    · simp [GoMap.set, GoMap.get, h, ih]

theorem GoMap.get_set_ne {K V : Type} [DecidableEq K] (m : GoMap K V) (k k' : K) (v : V)
    (h : k' ≠ k) : GoMap.get (GoMap.set m k v) k' = GoMap.get m k' := by
  induction m with
  | nil => simp [GoMap.set, GoMap.get, h]
  | cons p m ih =>
    obtain ⟨k1, v1⟩ := p
    by_cases h1 : k = k1
    · subst h1
      simp [GoMap.set, GoMap.get, h]
    · by_cases h2 : k' = k1
      · simp [GoMap.set, GoMap.get, h1, h2]
      · simp [GoMap.set, GoMap.get, h1, h2, ih]

theorem GoMap.len_set {K V : Type} [DecidableEq K] (m : GoMap K V) (k : K) (v : V)
    (h : GoMap.get m k = none) : GoMap.len (GoMap.set m k v) = GoMap.len m + 1 := by
  induction m with
  | nil => simp [GoMap.set, GoMap.len]
  | cons p m ih =>
    obtain ⟨k1, v1⟩ := p
    by_cases h1 : k = k1
    · simp [GoMap.get, h1] at h
    · simp only [GoMap.get, h1, if_false] at h
      have := ih h
      simp only [GoMap.len] at this
      simp [GoMap.set, GoMap.len, h1, this]

/-! ## Lemmas on the packing of a symbol -/

theorem numMask_eq : numMask = 2 ^ 48 - 1 := by decide

theorem MaxNum_eq : MaxNum = 2 ^ 48 - 1 := by decide

theorem Symbol.Num_eq (s : Symbol) : Symbol.Num s = ((s % 2 ^ 48 : Nat) : Int) := by
  unfold Symbol.Num int64OfUint64
  rw [numMask_eq, Nat.and_pow_two_sub_one_eq_mod]
  have h : s % 2 ^ 48 < 2 ^ 48 := Nat.mod_lt _ (by norm_num)
  have h1 : s % 2 ^ 48 % 2 ^ 64 = s % 2 ^ 48 := Nat.mod_eq_of_lt (by omega)
  rw [h1, if_pos (by omega)]

theorem Symbol.Flags_eq (s : Symbol) : Symbol.Flags s = s / 2 ^ 48 % 2 ^ 16 := by
  unfold Symbol.Flags uint16OfUint64
  rw [Nat.shiftRight_eq_div_pow]
  rfl

theorem uint64OfInt64_of_nonneg (n : Int) (h0 : 0 ≤ n) (h1 : n < 2 ^ 64) :
    uint64OfInt64 n = n.toNat := by
  unfold uint64OfInt64
  rw [Int.emod_eq_of_lt h0 h1]

theorem pack_eq (flags n : Nat) (hn : n < 2 ^ 48) :
    ((flags <<< numLen) % 2 ^ 64) ||| n = 2 ^ 48 * (flags % 2 ^ 16) + n := by
  have h1 : (flags <<< numLen) % 2 ^ 64 = 2 ^ 48 * (flags % 2 ^ 16) := by
    simp only [numLen, flagLen, Nat.shiftLeft_eq]
    omega
  rw [h1]
  exact (Nat.mul_add_lt_is_or hn _).symm

theorem pack_ne_zero (a n : Nat) (hn : n ≠ 0) : a ||| n ≠ 0 := by
  intro h
  obtain ⟨i, hi⟩ := Nat.ne_zero_implies_bit_true hn
  have h2 : (a ||| n).testBit i = true := by simp [Nat.testBit_or, hi]
  rw [h] at h2
  simp at h2

/-- The symbol that `newSymbol` packs from an ordinal below `2^48` decodes to that ordinal. -/
theorem pack_Num (flags : Nat) (num : Int) (h0 : 0 ≤ num) (h1 : num < 2 ^ 48) :
    Symbol.Num (((flags <<< numLen) % 2 ^ 64) ||| uint64OfInt64 num) = num := by
  rw [uint64OfInt64_of_nonneg num h0 (by omega), pack_eq flags num.toNat (by omega),
    Symbol.Num_eq]
  omega

/-- The symbol that `newSymbol` packs from 16-bit flags and an ordinal below `2^48` decodes
to those flags. -/
theorem pack_Flags (flags : Nat) (num : Int) (hf : flags < 2 ^ 16) (h0 : 0 ≤ num)
    (h1 : num < 2 ^ 48) :
    Symbol.Flags (((flags <<< numLen) % 2 ^ 64) ||| uint64OfInt64 num) = flags := by
  rw [uint64OfInt64_of_nonneg num h0 (by omega), pack_eq flags num.toNat (by omega),
    Symbol.Flags_eq]
  omega

/-! ## The four outcomes of `add` -/

theorem add_cases (maxNum : Int) (t : SymbolTable) (str : String) (flags : Nat) :
    (str = "" ∧ SymbolTable.add maxNum t str flags
        = { sym := ZeroSymbol, err := some Error.errEmptyString, tab := t }) ∨
    (str ≠ "" ∧ (GoMap.get t.str2Sym str).isSome = true ∧ SymbolTable.add maxNum t str flags
        = { sym := ZeroSymbol, err := some (Error.failedToAdd str Error.errStringAlreadyAdded),
            tab := t }) ∨
    (str ≠ "" ∧ GoMap.get t.str2Sym str = none ∧ maxNum < t.nextNum ∧
      SymbolTable.add maxNum t str flags
        = { sym := ZeroSymbol, err := some Error.errSymbolCountLimitReached, tab := t }) ∨
    (str ≠ "" ∧ GoMap.get t.str2Sym str = none ∧ t.nextNum ≤ maxNum ∧
      SymbolTable.add maxNum t str flags
        = { sym := packed t flags, err := none, tab := inserted t str flags }) := by
  by_cases h1 : str = ""
  · left
    exact ⟨h1, by simp [SymbolTable.add, h1]⟩
  · right
    cases h2 : GoMap.get t.str2Sym str with
    | some y =>
      left
      exact ⟨h1, rfl, by simp [SymbolTable.add, h1, h2]⟩
    | none =>
      right
      by_cases h3 : maxNum < t.nextNum
      · left
        exact ⟨h1, rfl, h3, by simp [SymbolTable.add, h1, h2, newSymbol, h3]⟩
      · right
        exact ⟨h1, rfl, by omega, by simp [SymbolTable.add, h1, h2, newSymbol, h3, packed, inserted]⟩

theorem wrapInt64_succ (n : Int) (h0 : 0 ≤ n) (h1 : n < 2 ^ 63 - 1) :
    wrapInt64 (n + 1) = n + 1 := by
  unfold wrapInt64
  omega

theorem add_err_unchanged (maxNum : Int) (t : SymbolTable) (str : String) (flags : Nat)
    (h : (SymbolTable.add maxNum t str flags).err ≠ none) :
    (SymbolTable.add maxNum t str flags).sym = ZeroSymbol ∧
      (SymbolTable.add maxNum t str flags).tab = t := by
  rcases add_cases maxNum t str flags with ⟨_, e⟩ | ⟨_, _, e⟩ | ⟨_, _, _, e⟩ | ⟨_, _, _, e⟩
  · rw [e]; exact ⟨rfl, rfl⟩
  · rw [e]; exact ⟨rfl, rfl⟩
  · rw [e]; exact ⟨rfl, rfl⟩
  · rw [e] at h; exact absurd rfl h

theorem add_ok (maxNum : Int) (t : SymbolTable) (str : String) (flags : Nat)
    (h : (SymbolTable.add maxNum t str flags).err = none) :
    str ≠ "" ∧ GoMap.get t.str2Sym str = none ∧ t.nextNum ≤ maxNum ∧
      SymbolTable.add maxNum t str flags
        = { sym := packed t flags, err := none, tab := inserted t str flags } := by
  rcases add_cases maxNum t str flags with ⟨_, e⟩ | ⟨_, _, e⟩ | ⟨_, _, _, e⟩ | h4
  · rw [e] at h; simp at h
  · rw [e] at h; simp at h
  · rw [e] at h; simp at h
  · exact h4

theorem add_tab_cases (maxNum : Int) (t : SymbolTable) (str : String) (flags : Nat) :
    (SymbolTable.add maxNum t str flags).tab = t ∨
      (str ≠ "" ∧ GoMap.get t.str2Sym str = none ∧ t.nextNum ≤ maxNum ∧
        SymbolTable.add maxNum t str flags
          = { sym := packed t flags, err := none, tab := inserted t str flags }) := by
  rcases add_cases maxNum t str flags with ⟨_, e⟩ | ⟨_, _, e⟩ | ⟨_, _, _, e⟩ | h4
  · left; rw [e]
  · left; rw [e]
  · left; rw [e]
  · right; exact h4

theorem toSymbol_eq_iff (t : SymbolTable) (s : String) (y : Symbol) :
    SymbolTable.toSymbol t s = (y, true) ↔ GoMap.get t.str2Sym s = some y := by
  unfold SymbolTable.toSymbol
  cases GoMap.get t.str2Sym s <;> simp

theorem toString_eq_iff (t : SymbolTable) (y : Symbol) (s : String) :
    SymbolTable.toString t y = (s, true) ↔ GoMap.get t.sym2Str y = some s := by
  unfold SymbolTable.toString
  cases GoMap.get t.sym2Str y <;> simp

/-! ## The invariants hold in every reachable table -/

theorem inv_fresh (maxNum : Int) : Inv maxNum NewSymbolTable where
  one_le := by decide
  le_ceiling := Or.inl rfl
  count := by decide
  len_eq := rfl
  fwd := by intro s y h; simp [NewSymbolTable, GoMap.get] at h
  bwd := by intro y s h; simp [NewSymbolTable, GoMap.get] at h
  num_lt := by intro y s h; simp [NewSymbolTable, GoMap.get] at h
  no_empty := rfl

/-- In a table satisfying the invariant, the symbol packed from the counter is not a key
of the reverse index. -/
theorem packed_fresh (maxNum : Int) (hmax : maxNum ≤ 2 ^ 48 - 1) (t : SymbolTable)
    (hinv : Inv maxNum t) (hle : t.nextNum ≤ maxNum) (flags : Nat) :
    GoMap.get t.sym2Str (packed t flags) = none := by
  cases h : GoMap.get t.sym2Str (packed t flags) with
  | none => rfl
  | some s =>
    have h1 := (hinv.num_lt _ _ h).2
    have h2 : Symbol.Num (packed t flags) = t.nextNum :=
      pack_Num flags t.nextNum (by have := hinv.one_le; omega) (by omega)
    omega

theorem inv_inserted (maxNum : Int) (hmax : maxNum ≤ 2 ^ 48 - 1) (t : SymbolTable)
    (hinv : Inv maxNum t) (str : String) (flags : Nat) (hne : str ≠ "")
    (habs : GoMap.get t.str2Sym str = none) (hle : t.nextNum ≤ maxNum) :
    Inv maxNum (inserted t str flags) := by
  have h1 := hinv.one_le
  have hfresh := packed_fresh maxNum hmax t hinv hle flags
  have hnum : Symbol.Num (packed t flags) = t.nextNum :=
    pack_Num flags t.nextNum (by omega) (by omega)
  have hnext : (inserted t str flags).nextNum = t.nextNum + 1 :=
    wrapInt64_succ t.nextNum (by omega) (by omega)
  have hlen1 : GoMap.len (inserted t str flags).str2Sym = GoMap.len t.str2Sym + 1 :=
    GoMap.len_set _ _ _ habs
  have hlen2 : GoMap.len (inserted t str flags).sym2Str = GoMap.len t.sym2Str + 1 :=
    GoMap.len_set _ _ _ hfresh
  refine ⟨by omega, Or.inr (by omega), ?_, ?_, ?_, ?_, ?_, ?_⟩
  · have := hinv.count
    rw [hnext, hlen1]
    push_cast
    omega
  · rw [hlen1, hlen2, hinv.len_eq]
  · intro s y h
    show GoMap.get (GoMap.set t.sym2Str (packed t flags) str) y = some s
    have h : GoMap.get (GoMap.set t.str2Sym str (packed t flags)) s = some y := h
    by_cases hs : s = str
    · subst hs
      rw [GoMap.get_set_self] at h
      cases h
      exact GoMap.get_set_self _ _ _
    · rw [GoMap.get_set_ne _ _ _ _ hs] at h
      have h2 := hinv.fwd s y h
      have hy : y ≠ packed t flags := by
        intro e
        rw [e, hfresh] at h2
        cases h2
      rw [GoMap.get_set_ne _ _ _ _ hy]
      exact h2
  · intro y s h
    show GoMap.get (GoMap.set t.str2Sym str (packed t flags)) s = some y
    have h : GoMap.get (GoMap.set t.sym2Str (packed t flags) str) y = some s := h
    by_cases hy : y = packed t flags
    · subst hy
      rw [GoMap.get_set_self] at h
      cases h
      exact GoMap.get_set_self _ _ _
    · rw [GoMap.get_set_ne _ _ _ _ hy] at h
      have h2 := hinv.bwd y s h
      have hs : s ≠ str := by
        intro e
        rw [e, habs] at h2
        cases h2
      rw [GoMap.get_set_ne _ _ _ _ hs]
      exact h2
  · intro y s h
    have h : GoMap.get (GoMap.set t.sym2Str (packed t flags) str) y = some s := h
    rw [hnext]
    by_cases hy : y = packed t flags
    · subst hy
      omega
    · rw [GoMap.get_set_ne _ _ _ _ hy] at h
      have := hinv.num_lt y s h
      omega
  · show GoMap.get (GoMap.set t.str2Sym str (packed t flags)) "" = none
    rw [GoMap.get_set_ne _ _ _ _ (Ne.symm hne)]
    exact hinv.no_empty

theorem inv_add (maxNum : Int) (hmax : maxNum ≤ 2 ^ 48 - 1) (t : SymbolTable)
    (hinv : Inv maxNum t) (str : String) (flags : Nat) :
    Inv maxNum (SymbolTable.add maxNum t str flags).tab := by
  rcases add_tab_cases maxNum t str flags with e | ⟨hne, habs, hle, e⟩
  · rw [e]; exact hinv
  · rw [e]; exact inv_inserted maxNum hmax t hinv str flags hne habs hle

theorem inv_of_reachable (maxNum : Int) (hmax : maxNum ≤ 2 ^ 48 - 1) (t : SymbolTable)
    (hr : Reachable maxNum t) : Inv maxNum t := by
  induction hr with
  | fresh => exact inv_fresh maxNum
  | step str flags _ ih => exact inv_add maxNum hmax _ ih str flags

theorem reachable_addAll (maxNum : Int) (calls : List (String × Nat)) :
    ∀ t : SymbolTable, Reachable maxNum t → Reachable maxNum (addAll maxNum t calls).2 := by
  induction calls with
  | nil => intro t h; exact h
  | cons c calls ih =>
    intro t h
    obtain ⟨str, flags⟩ := c
    exact ih _ (Reachable.step str flags h)

theorem invWide_fresh : InvWide NewSymbolTable where
  one_le := by decide
  lt_top := by decide
  no_empty := rfl
  no_zero := rfl

/-- The symbol packed from a positive counter below `2^63` is not the zero symbol. -/
theorem packed_ne_zero (t : SymbolTable) (flags : Nat) (h1 : 1 ≤ t.nextNum)
    (h2 : t.nextNum < 2 ^ 63) : packed t flags ≠ ZeroSymbol := by
  unfold packed ZeroSymbol
  apply pack_ne_zero
  rw [uint64OfInt64_of_nonneg t.nextNum (by omega) (by omega)]
  omega

theorem invWide_add (maxNum : Int) (hmax : maxNum < 2 ^ 63 - 1) (t : SymbolTable)
    (hinv : InvWide t) (str : String) (flags : Nat) :
    InvWide (SymbolTable.add maxNum t str flags).tab := by
  rcases add_tab_cases maxNum t str flags with e | ⟨hne, habs, hle, e⟩
  · rw [e]; exact hinv
  · rw [e]
    have h1 := hinv.one_le
    have hnext : (inserted t str flags).nextNum = t.nextNum + 1 :=
      wrapInt64_succ t.nextNum (by omega) (by omega)
    refine ⟨?_, ?_, ?_, ?_⟩
    · show 1 ≤ (inserted t str flags).nextNum
      omega
    · show (inserted t str flags).nextNum < 2 ^ 63
      omega
    · show GoMap.get (GoMap.set t.str2Sym str (packed t flags)) "" = none
      rw [GoMap.get_set_ne _ _ _ _ (Ne.symm hne)]
      exact hinv.no_empty
    · show GoMap.get (GoMap.set t.sym2Str (packed t flags) str) ZeroSymbol = none
      rw [GoMap.get_set_ne _ _ _ _ (Ne.symm (packed_ne_zero t flags h1 hinv.lt_top))]
      exact hinv.no_zero

theorem invWide_of_reachable (maxNum : Int) (hmax : maxNum < 2 ^ 63 - 1) (t : SymbolTable)
    (hr : Reachable maxNum t) : InvWide t := by
  induction hr with
  | fresh => exact invWide_fresh
  | step str flags _ ih => exact invWide_add maxNum hmax _ ih str flags

/-! ## Sequences of calls: lemmas -/

theorem addAll_cons (maxNum : Int) (t : SymbolTable) (str : String) (flags : Nat)
    (calls : List (String × Nat)) :
    addAll maxNum t ((str, flags) :: calls)
      = (SymbolTable.add maxNum t str flags
            :: (addAll maxNum (SymbolTable.add maxNum t str flags).tab calls).1,
          (addAll maxNum (SymbolTable.add maxNum t str flags).tab calls).2) := rfl

theorem addAll_append (maxNum : Int) (a b : List (String × Nat)) :
    ∀ t : SymbolTable, addAll maxNum t (a ++ b)
      = ((addAll maxNum t a).1 ++ (addAll maxNum (addAll maxNum t a).2 b).1,
          (addAll maxNum (addAll maxNum t a).2 b).2) := by
  induction a with
  | nil => intro t; rfl
  | cons c a ih =>
    intro t
    obtain ⟨str, flags⟩ := c
    rw [List.cons_append, addAll_cons, addAll_cons, ih]
    rfl

theorem inv_addAll (maxNum : Int) (hmax : maxNum ≤ 2 ^ 48 - 1) (calls : List (String × Nat)) :
    ∀ t : SymbolTable, Inv maxNum t → Inv maxNum (addAll maxNum t calls).2 := by
  induction calls with
  | nil => intro t h; exact h
  | cons c calls ih =>
    intro t h
    obtain ⟨str, flags⟩ := c
    exact ih _ (inv_add maxNum hmax t h str flags)

/-- A call of `add` keeps every entry of the forward index. -/
theorem str2Sym_add_of_get (maxNum : Int) (t : SymbolTable) (str : String) (flags : Nat)
    (s : String) (y : Symbol) (h : GoMap.get t.str2Sym s = some y) :
    GoMap.get (SymbolTable.add maxNum t str flags).tab.str2Sym s = some y := by
  rcases add_tab_cases maxNum t str flags with e | ⟨_, habs, _, e⟩
  · rw [e]; exact h
  · rw [e]
    show GoMap.get (GoMap.set t.str2Sym str (packed t flags)) s = some y
    have hs : s ≠ str := by
      intro e1
      rw [e1, habs] at h
      cases h
    rw [GoMap.get_set_ne _ _ _ _ hs]
    exact h

theorem str2Sym_addAll_of_get (maxNum : Int) (calls : List (String × Nat)) (s : String)
    (y : Symbol) :
    ∀ t : SymbolTable, GoMap.get t.str2Sym s = some y →
      GoMap.get (addAll maxNum t calls).2.str2Sym s = some y := by
  induction calls with
  | nil => intro t h; exact h
  | cons c calls ih =>
    intro t h
    obtain ⟨str, flags⟩ := c
    exact ih _ (str2Sym_add_of_get maxNum t str flags s y h)

/-- In a table satisfying the invariant, a call of `add` keeps every entry of the reverse
index. -/
theorem sym2Str_add_of_get (maxNum : Int) (hmax : maxNum ≤ 2 ^ 48 - 1) (t : SymbolTable)
    (hinv : Inv maxNum t) (str : String) (flags : Nat) (y : Symbol) (s : String)
    (h : GoMap.get t.sym2Str y = some s) :
    GoMap.get (SymbolTable.add maxNum t str flags).tab.sym2Str y = some s := by
  rcases add_tab_cases maxNum t str flags with e | ⟨_, _, hle, e⟩
  · rw [e]; exact h
  · rw [e]
    show GoMap.get (GoMap.set t.sym2Str (packed t flags) str) y = some s
    have hy : y ≠ packed t flags := by
      intro e1
      rw [e1, packed_fresh maxNum hmax t hinv hle flags] at h
      cases h
    rw [GoMap.get_set_ne _ _ _ _ hy]
    exact h

theorem sym2Str_addAll_of_get (maxNum : Int) (hmax : maxNum ≤ 2 ^ 48 - 1)
    (calls : List (String × Nat)) (y : Symbol) (s : String) :
    ∀ t : SymbolTable, Inv maxNum t → GoMap.get t.sym2Str y = some s →
      GoMap.get (addAll maxNum t calls).2.sym2Str y = some s := by
  induction calls with
  | nil => intro t _ h; exact h
  | cons c calls ih =>
    intro t hinv h
    obtain ⟨str, flags⟩ := c
    exact ih _ (inv_add maxNum hmax t hinv str flags)
      (sym2Str_add_of_get maxNum hmax t hinv str flags y s h)

/-- A string that is neither in the forward index nor among the strings of the calls is
not in the forward index after the calls. -/
theorem str2Sym_addAll_of_not_mem (maxNum : Int) (calls : List (String × Nat)) (s : String) :
    ∀ t : SymbolTable, GoMap.get t.str2Sym s = none → s ∉ calls.map Prod.fst →
      GoMap.get (addAll maxNum t calls).2.str2Sym s = none := by
  induction calls with
  | nil => intro t h _; exact h
  | cons c calls ih =>
    intro t h hmem
    obtain ⟨str, flags⟩ := c
    simp only [List.map_cons, List.mem_cons, not_or] at hmem
    apply ih _ _ hmem.2
    rcases add_tab_cases maxNum t str flags with e | ⟨_, _, _, e⟩
    · rw [e]; exact h
    · rw [e]
      show GoMap.get (GoMap.set t.str2Sym str (packed t flags)) s = none
      rw [GoMap.get_set_ne _ _ _ _ hmem.1]
      exact h

/-- The successful calls of a sequence issue the ordinals `nextNum`, `nextNum + 1`, ... -/
theorem successes_num (maxNum : Int) (hmax : maxNum ≤ 2 ^ 48 - 1)
    (calls : List (String × Nat)) :
    ∀ (t : SymbolTable), 0 ≤ t.nextNum → ∀ (k : Nat) (r : AddResult),
      (successes (addAll maxNum t calls).1)[k]? = some r →
        Symbol.Num r.sym = t.nextNum + (k : Int) := by
  induction calls with
  | nil =>
    intro t _ k r h
    simp [addAll, successes] at h
  | cons c calls ih =>
    intro t h0 k r h
    obtain ⟨str, flags⟩ := c
    rw [addAll_cons] at h
    rcases add_cases maxNum t str flags with ⟨_, e⟩ | ⟨_, _, e⟩ | ⟨_, _, _, e⟩ | ⟨_, _, hle, e⟩
    · rw [e] at h
      simp only [successes, List.filter] at h
      exact ih t h0 k r h
    · rw [e] at h
      simp only [successes, List.filter] at h
      exact ih t h0 k r h
    · rw [e] at h
      simp only [successes, List.filter] at h
      exact ih t h0 k r h
    · rw [e] at h
      have hnext : (inserted t str flags).nextNum = t.nextNum + 1 :=
        wrapInt64_succ t.nextNum h0 (by omega)
      simp only [successes, List.filter, decide_True] at h
      cases k with
      | zero =>
        simp only [List.getElem?_cons_zero, Option.some.injEq] at h
        rw [← h]
        simpa using pack_Num flags t.nextNum h0 (by omega)
      | succ k =>
        simp only [List.getElem?_cons_succ] at h
        have := ih (inserted t str flags) (by omega) k r h
        rw [this, hnext]
        push_cast
        omega

/-- Calls with pairwise distinct, non-empty, not yet added strings all succeed as long as
the counter stays within the ceiling; they issue consecutive ordinals. -/
theorem addAll_distinct (maxNum : Int) (hmax : maxNum ≤ 2 ^ 48 - 1)
    (calls : List (String × Nat)) :
    ∀ (t : SymbolTable), 0 ≤ t.nextNum → (calls.map Prod.fst).Nodup →
      "" ∉ calls.map Prod.fst → (∀ s ∈ calls.map Prod.fst, GoMap.get t.str2Sym s = none) →
      t.nextNum + (calls.length : Int) ≤ maxNum + 1 →
      (addAll maxNum t calls).1.map (fun r => r.err) = List.replicate calls.length none ∧
        (addAll maxNum t calls).1.map (fun r => Symbol.Num r.sym)
          = (List.range calls.length).map (fun (k : Nat) => t.nextNum + (k : Int)) ∧
        (addAll maxNum t calls).2.nextNum = t.nextNum + (calls.length : Int) := by
  induction calls with
  | nil =>
    intro t _ _ _ _ _
    simp [addAll]
  | cons c calls ih =>
    intro t h0 hnd hne habs hle
    obtain ⟨str, flags⟩ := c
    simp only [List.map_cons, List.nodup_cons, List.mem_cons, not_or, List.length_cons,
      Nat.cast_add, Nat.cast_one] at hnd hne hle
    have hstr : GoMap.get t.str2Sym str = none := habs str (by simp)
    rcases add_cases maxNum t str flags with ⟨h1, _⟩ | ⟨_, h2, _⟩ | ⟨_, _, h3, _⟩ | ⟨_, _, _, e⟩
    · exact absurd h1.symm hne.1
    · rw [hstr] at h2; cases h2
    · omega
    · have hnext : (inserted t str flags).nextNum = t.nextNum + 1 :=
        wrapInt64_succ t.nextNum h0 (by omega)
      have habs2 : ∀ s ∈ calls.map Prod.fst,
          GoMap.get (inserted t str flags).str2Sym s = none := by
        intro s hs
        show GoMap.get (GoMap.set t.str2Sym str (packed t flags)) s = none
        have hs2 : s ≠ str := by
          intro e1
          rw [e1] at hs
          exact hnd.1 hs
        rw [GoMap.get_set_ne _ _ _ _ hs2]
        exact habs s (by simp [List.mem_cons, List.mem_map] at hs ⊢; exact Or.inr hs)
      obtain ⟨ih1, ih2, ih3⟩ := ih (inserted t str flags) (by omega) hnd.2 hne.2 habs2 (by omega)
      rw [addAll_cons, e]
      refine ⟨?_, ?_, ?_⟩
      · simp only [List.map_cons, List.length_cons, List.replicate_succ, ih1]
      · simp only [List.map_cons, List.length_cons, List.range_succ_eq_map, List.map_map, ih2]
        congr 1
        · simpa using pack_Num flags t.nextNum h0 (by omega)
        · apply List.map_congr_left
          intro k _
          simp only [Function.comp, hnext]
          push_cast
          omega
      · show (addAll maxNum (inserted t str flags) calls).2.nextNum = _
        rw [ih3, hnext]
        simp only [List.length_cons]
        push_cast
        omega

/-! ## Round trip and postcondition of a successful `add` -/

/-- Claim C1. After a successful `add(s, f)` returning `y`, on the resulting table
`toSymbol(s)` returns `(y, true)` and `toString(y)` returns `(s, true)`; this holds for
every table, every ceiling and every flags value. -/
theorem add_lookup_roundtrip (maxNum : Int) (t : SymbolTable) (s : String) (f : Nat)
    (h : (SymbolTable.add maxNum t s f).err = none) :
    SymbolTable.toSymbol (SymbolTable.add maxNum t s f).tab s
        = ((SymbolTable.add maxNum t s f).sym, true) ∧
      SymbolTable.toString (SymbolTable.add maxNum t s f).tab (SymbolTable.add maxNum t s f).sym
        = (s, true) := by
  obtain ⟨_, _, _, e⟩ := add_ok maxNum t s f h
  rw [e, toSymbol_eq_iff, toString_eq_iff]
  exact ⟨GoMap.get_set_self _ _ _, GoMap.get_set_self _ _ _⟩

theorem add_lookup_roundtrip_witness :
    (SymbolTable.add MaxNum NewSymbolTable "foo" 1).err = none ∧
      SymbolTable.toSymbol (SymbolTable.add MaxNum NewSymbolTable "foo" 1).tab "foo"
        = (281474976710657, true) ∧
      SymbolTable.toString (SymbolTable.add MaxNum NewSymbolTable "foo" 1).tab 281474976710657
        = ("foo", true) :=
  ⟨by decide, add_lookup_roundtrip MaxNum NewSymbolTable "foo" 1 (by decide)⟩

/-- Claim C3. Under a ceiling of at most `2^48 - 1`, a successful `add(s, f)` with 16-bit
flags on a reachable table returns a symbol whose flags are `f` and whose ordinal is the
counter before the call, advances the counter by one, and adds exactly one entry to the
forward index and one to the reverse index. -/
theorem add_success_post (maxNum : Int) (hmax : maxNum ≤ 2 ^ 48 - 1) (t : SymbolTable)
    (hr : Reachable maxNum t) (s : String) (f : Nat) (hf : f < 2 ^ 16)
    (h : (SymbolTable.add maxNum t s f).err = none) :
    Symbol.Flags (SymbolTable.add maxNum t s f).sym = f ∧
      Symbol.Num (SymbolTable.add maxNum t s f).sym = t.nextNum ∧
      (SymbolTable.add maxNum t s f).tab.nextNum = t.nextNum + 1 ∧
      GoMap.len (SymbolTable.add maxNum t s f).tab.str2Sym = GoMap.len t.str2Sym + 1 ∧
      GoMap.len (SymbolTable.add maxNum t s f).tab.sym2Str = GoMap.len t.sym2Str + 1 := by
  have hinv := inv_of_reachable maxNum hmax t hr
  have h1 := hinv.one_le
  obtain ⟨_, habs, hle, e⟩ := add_ok maxNum t s f h
  rw [e]
  refine ⟨?_, ?_, ?_, ?_, ?_⟩
  · exact pack_Flags f t.nextNum hf (by omega) (by omega)
  · exact pack_Num f t.nextNum (by omega) (by omega)
  · exact wrapInt64_succ t.nextNum (by omega) (by omega)
  · exact GoMap.len_set _ _ _ habs
  · exact GoMap.len_set _ _ _ (packed_fresh maxNum hmax t hinv hle f)

theorem add_success_post_witness :
    Symbol.Flags (SymbolTable.add MaxNum (SymbolTable.add MaxNum NewSymbolTable "aaa" 7).tab
        "bbb" 65535).sym = 65535 ∧
      Symbol.Num (SymbolTable.add MaxNum (SymbolTable.add MaxNum NewSymbolTable "aaa" 7).tab
        "bbb" 65535).sym = (SymbolTable.add MaxNum NewSymbolTable "aaa" 7).tab.nextNum ∧
      (SymbolTable.add MaxNum (SymbolTable.add MaxNum NewSymbolTable "aaa" 7).tab
        "bbb" 65535).tab.nextNum = (SymbolTable.add MaxNum NewSymbolTable "aaa" 7).tab.nextNum + 1 ∧
      GoMap.len (SymbolTable.add MaxNum (SymbolTable.add MaxNum NewSymbolTable "aaa" 7).tab
        "bbb" 65535).tab.str2Sym
        = GoMap.len (SymbolTable.add MaxNum NewSymbolTable "aaa" 7).tab.str2Sym + 1 ∧
      GoMap.len (SymbolTable.add MaxNum (SymbolTable.add MaxNum NewSymbolTable "aaa" 7).tab
        "bbb" 65535).tab.sym2Str
        = GoMap.len (SymbolTable.add MaxNum NewSymbolTable "aaa" 7).tab.sym2Str + 1 :=
  add_success_post MaxNum (by decide) (SymbolTable.add MaxNum NewSymbolTable "aaa" 7).tab
    (Reachable.step "aaa" 7 Reachable.fresh) "bbb" 65535 (by decide) (by decide)

/-! ## Rejections -/

/-- Claim C5. On every table, whatever its counter and the ceiling, `add("", f)` fails
with `errEmptyString`, returns `ZeroSymbol` and leaves the counter (indeed the whole
table) as it was. -/
theorem add_empty_rejected (maxNum : Int) (t : SymbolTable) (f : Nat) :
    (SymbolTable.add maxNum t "" f).err = some Error.errEmptyString ∧
      (SymbolTable.add maxNum t "" f).sym = ZeroSymbol ∧
      (SymbolTable.add maxNum t "" f).tab.nextNum = t.nextNum ∧
      (SymbolTable.add maxNum t "" f).tab = t := by
  simp [SymbolTable.add]

/-- Claim C7. Whenever `add(s, f)` returns a non-nil error, the returned symbol is
`ZeroSymbol` and the table after the call is the table before it: same forward index,
same reverse index, same counter. -/
theorem add_failure_atomic (maxNum : Int) (t : SymbolTable) (s : String) (f : Nat)
    (h : (SymbolTable.add maxNum t s f).err ≠ none) :
    (SymbolTable.add maxNum t s f).sym = ZeroSymbol ∧
      (SymbolTable.add maxNum t s f).tab = t ∧
      (SymbolTable.add maxNum t s f).tab.str2Sym = t.str2Sym ∧
      (SymbolTable.add maxNum t s f).tab.sym2Str = t.sym2Str ∧
      (SymbolTable.add maxNum t s f).tab.nextNum = t.nextNum := by
  obtain ⟨h1, h2⟩ := add_err_unchanged maxNum t s f h
  exact ⟨h1, h2, by rw [h2], by rw [h2], by rw [h2]⟩

theorem add_failure_atomic_witness :
    (SymbolTable.add 1 (SymbolTable.add 1 NewSymbolTable "aaa" 3).tab "bbb" 4).err ≠ none ∧
      (SymbolTable.add 1 (SymbolTable.add 1 NewSymbolTable "aaa" 3).tab "bbb" 4).sym
        = ZeroSymbol ∧
      (SymbolTable.add 1 (SymbolTable.add 1 NewSymbolTable "aaa" 3).tab "bbb" 4).tab
        = (SymbolTable.add 1 NewSymbolTable "aaa" 3).tab :=
  ⟨by decide,
    (add_failure_atomic 1 (SymbolTable.add 1 NewSymbolTable "aaa" 3).tab "bbb" 4 (by decide)).1,
    (add_failure_atomic 1 (SymbolTable.add 1 NewSymbolTable "aaa" 3).tab "bbb" 4 (by decide)).2.1⟩

/-! ## Invariants of reachable tables -/

/-- Claim C8. Under a ceiling of at most `2^48 - 1`, in every reachable table
`toSymbol(s) = (y, true)` holds exactly when `toString(y) = (s, true)` does, and the two
indices have the same number of entries. -/
theorem mirror_invariant (maxNum : Int) (hmax : maxNum ≤ 2 ^ 48 - 1) (t : SymbolTable)
    (hr : Reachable maxNum t) :
    (∀ (s : String) (y : Symbol),
        SymbolTable.toSymbol t s = (y, true) ↔ SymbolTable.toString t y = (s, true)) ∧
      GoMap.len t.str2Sym = GoMap.len t.sym2Str := by
  have hinv := inv_of_reachable maxNum hmax t hr
  refine ⟨?_, hinv.len_eq.symm⟩
  intro s y
  rw [toSymbol_eq_iff, toString_eq_iff]
  exact ⟨hinv.fwd s y, hinv.bwd y s⟩

theorem mirror_invariant_witness :
    (SymbolTable.toSymbol (SymbolTable.add MaxNum NewSymbolTable "aaa" 7).tab "aaa"
          = (1970324836974593, true) ↔
        SymbolTable.toString (SymbolTable.add MaxNum NewSymbolTable "aaa" 7).tab
          1970324836974593 = ("aaa", true)) ∧
      GoMap.len (SymbolTable.add MaxNum NewSymbolTable "aaa" 7).tab.str2Sym
        = GoMap.len (SymbolTable.add MaxNum NewSymbolTable "aaa" 7).tab.sym2Str :=
  ⟨(mirror_invariant MaxNum (by decide) (SymbolTable.add MaxNum NewSymbolTable "aaa" 7).tab
      (Reachable.step "aaa" 7 Reachable.fresh)).1 "aaa" 1970324836974593,
    (mirror_invariant MaxNum (by decide) (SymbolTable.add MaxNum NewSymbolTable "aaa" 7).tab
      (Reachable.step "aaa" 7 Reachable.fresh)).2⟩

/-- Claim C10. Under every ceiling below the largest `int64` (the default `MaxNum`
included), in every reachable table `toString(ZeroSymbol)` returns `("", false)`,
`toSymbol("")` returns `(ZeroSymbol, false)`, and a successful `add` never returns
`ZeroSymbol`, whatever the flags. -/
theorem zero_and_empty_excluded (maxNum : Int) (hmax : maxNum < 2 ^ 63 - 1) (t : SymbolTable)
    (hr : Reachable maxNum t) :
    SymbolTable.toString t ZeroSymbol = ("", false) ∧
      SymbolTable.toSymbol t "" = (ZeroSymbol, false) ∧
      ∀ (s : String) (f : Nat), (SymbolTable.add maxNum t s f).err = none →
        (SymbolTable.add maxNum t s f).sym ≠ ZeroSymbol := by
  have hinv := invWide_of_reachable maxNum hmax t hr
  refine ⟨?_, ?_, ?_⟩
  · unfold SymbolTable.toString
    rw [hinv.no_zero]
  · unfold SymbolTable.toSymbol
    rw [hinv.no_empty]
    rfl
  · intro s f h
    obtain ⟨_, _, _, e⟩ := add_ok maxNum t s f h
    rw [e]
    exact packed_ne_zero t f hinv.one_le hinv.lt_top

theorem zero_and_empty_excluded_witness :
    SymbolTable.toString (SymbolTable.add MaxNum NewSymbolTable "aaa" 0).tab ZeroSymbol
        = ("", false) ∧
      SymbolTable.toSymbol (SymbolTable.add MaxNum NewSymbolTable "aaa" 0).tab ""
        = (ZeroSymbol, false) ∧
      (SymbolTable.add MaxNum (SymbolTable.add MaxNum NewSymbolTable "aaa" 0).tab "bbb" 0).sym
        ≠ ZeroSymbol :=
  ⟨(zero_and_empty_excluded MaxNum (by decide)
      (SymbolTable.add MaxNum NewSymbolTable "aaa" 0).tab
      (Reachable.step "aaa" 0 Reachable.fresh)).1,
    (zero_and_empty_excluded MaxNum (by decide)
      (SymbolTable.add MaxNum NewSymbolTable "aaa" 0).tab
      (Reachable.step "aaa" 0 Reachable.fresh)).2.1,
    (zero_and_empty_excluded MaxNum (by decide)
      (SymbolTable.add MaxNum NewSymbolTable "aaa" 0).tab
      (Reachable.step "aaa" 0 Reachable.fresh)).2.2 "bbb" 0 (by decide)⟩

/-! ## Sequences of calls: ordinals, duplicates, capacity, stability -/

/-- Claim C2. Under a ceiling of at most `2^48 - 1`, for every sequence of `add` calls on
a fresh table, the successful call at position `k` (counting from 0) among the successful
ones returns a symbol whose ordinal is `k + 1`. In particular, when the strings of the
calls are pairwise distinct and non-empty and there are at most `maxNum` of them, every
call succeeds, and the ordinals returned are `1, 2, ..., n` in call order, strictly
increasing (hence pairwise distinct). -/
theorem ordinals_consecutive (maxNum : Int) (hmax : maxNum ≤ 2 ^ 48 - 1)
    (calls : List (String × Nat)) :
    (∀ (k : Nat) (r : AddResult),
        (successes (addAll maxNum NewSymbolTable calls).1)[k]? = some r →
          Symbol.Num r.sym = (k : Int) + 1) ∧
      ((calls.length : Int) ≤ maxNum → (calls.map Prod.fst).Nodup → "" ∉ calls.map Prod.fst →
        (addAll maxNum NewSymbolTable calls).1.map (fun r => r.err)
            = List.replicate calls.length none ∧
          (addAll maxNum NewSymbolTable calls).1.map (fun r => Symbol.Num r.sym)
            = (List.range calls.length).map (fun (k : Nat) => (k : Int) + 1) ∧
          ((addAll maxNum NewSymbolTable calls).1.map (fun r => Symbol.Num r.sym)).Pairwise
            (fun a b => a < b)) := by
  constructor
  · intro k r h
    have := successes_num maxNum hmax calls NewSymbolTable (by decide) k r h
    rw [this]
    show (1 : Int) + (k : Int) = (k : Int) + 1
    omega
  · intro hlen hnd hne
    obtain ⟨h1, h2, _⟩ := addAll_distinct maxNum hmax calls NewSymbolTable (by decide) hnd hne
      (fun s _ => rfl) (by show (1 : Int) + _ ≤ _; omega)
    have h3 : (addAll maxNum NewSymbolTable calls).1.map (fun r => Symbol.Num r.sym)
        = (List.range calls.length).map (fun (k : Nat) => (k : Int) + 1) := by
      rw [h2]
      apply List.map_congr_left
      intro k _
      show (1 : Int) + (k : Int) = (k : Int) + 1
      omega
    refine ⟨h1, h3, ?_⟩
    rw [h3, List.pairwise_map]
    exact (List.pairwise_lt_range calls.length).imp (fun h => by omega)

theorem ordinals_consecutive_witness :
    (2 : Int) ≤ 2 ^ 48 - 1 ∧
      (addAll 2 NewSymbolTable [("a", 1), ("b", 2)]).1.map (fun r => Symbol.Num r.sym)
        = (List.range 2).map (fun (k : Nat) => (k : Int) + 1) :=
  ⟨by decide,
    ((ordinals_consecutive 2 (by decide) [("a", 1), ("b", 2)]).2
      (by decide) (by decide) (by decide)).2.1⟩

/-- Claim C4. Once `add(s, f1)` has succeeded on a table, every later `add(s, f2)`, after
any sequence of intervening `add` calls and whatever `f2` is, fails with an error that
wraps `errStringAlreadyAdded` (so `errors.Is` holds), returns `ZeroSymbol` and leaves the
table, hence the number of entries of both indices, unchanged. This holds for every
table, reachable or not. -/
theorem add_duplicate_rejected (maxNum : Int) (t : SymbolTable) (s : String) (f1 f2 : Nat)
    (calls : List (String × Nat)) (h : (SymbolTable.add maxNum t s f1).err = none) :
    (SymbolTable.add maxNum
        (addAll maxNum (SymbolTable.add maxNum t s f1).tab calls).2 s f2).err
        = some (Error.failedToAdd s Error.errStringAlreadyAdded) ∧
      errorsIs (Error.failedToAdd s Error.errStringAlreadyAdded) Error.errStringAlreadyAdded
        = true ∧
      (SymbolTable.add maxNum
        (addAll maxNum (SymbolTable.add maxNum t s f1).tab calls).2 s f2).sym = ZeroSymbol ∧
      (SymbolTable.add maxNum
        (addAll maxNum (SymbolTable.add maxNum t s f1).tab calls).2 s f2).tab
        = (addAll maxNum (SymbolTable.add maxNum t s f1).tab calls).2 ∧
      GoMap.len (SymbolTable.add maxNum
        (addAll maxNum (SymbolTable.add maxNum t s f1).tab calls).2 s f2).tab.str2Sym
        = GoMap.len (addAll maxNum (SymbolTable.add maxNum t s f1).tab calls).2.str2Sym ∧
      GoMap.len (SymbolTable.add maxNum
        (addAll maxNum (SymbolTable.add maxNum t s f1).tab calls).2 s f2).tab.sym2Str
        = GoMap.len (addAll maxNum (SymbolTable.add maxNum t s f1).tab calls).2.sym2Str := by
  obtain ⟨hne, _, _, e⟩ := add_ok maxNum t s f1 h
  have h1 : GoMap.get (SymbolTable.add maxNum t s f1).tab.str2Sym s = some (packed t f1) := by
    rw [e]
    exact GoMap.get_set_self _ _ _
  have h2 := str2Sym_addAll_of_get maxNum calls s (packed t f1) _ h1
  rcases add_cases maxNum (addAll maxNum (SymbolTable.add maxNum t s f1).tab calls).2 s f2 with
    ⟨c1, _⟩ | ⟨_, _, e2⟩ | ⟨_, c3, _⟩ | ⟨_, c4, _⟩
  · exact absurd c1 hne
  · rw [e2]
    exact ⟨rfl, by simp [errorsIs], rfl, rfl, rfl, rfl⟩
  · rw [h2] at c3; cases c3
  · rw [h2] at c4; cases c4

theorem add_duplicate_rejected_witness :
    (SymbolTable.add MaxNum NewSymbolTable "aaa" 1).err = none ∧
      (SymbolTable.add MaxNum
        (addAll MaxNum (SymbolTable.add MaxNum NewSymbolTable "aaa" 1).tab [("bbb", 2)]).2
        "aaa" 3).err = some (Error.failedToAdd "aaa" Error.errStringAlreadyAdded) :=
  ⟨by decide,
    (add_duplicate_rejected MaxNum NewSymbolTable "aaa" 1 3 [("bbb", 2)] (by decide)).1⟩

/-- Claim C6. With the ceiling set to `N`, where `N ≤ 2^48 - 1`, applying `add` in order
to `N + 1` pairwise distinct non-empty strings on a fresh table makes the first `N` calls
succeed and the last one fail with `errSymbolCountLimitReached` and return `ZeroSymbol`;
the failing call leaves the table as the first `N` calls left it, with exactly `N` entries
in each index. -/
theorem capacity_exhaustion (N : Nat) (hN : N ≤ 2 ^ 48 - 1) (calls : List (String × Nat))
    (hlen : calls.length = N + 1) (hnd : (calls.map Prod.fst).Nodup)
    (hne : "" ∉ calls.map Prod.fst) :
    (addAll (N : Int) NewSymbolTable calls).1.map (fun r => r.err)
        = List.replicate N none ++ [some Error.errSymbolCountLimitReached] ∧
      ((addAll (N : Int) NewSymbolTable calls).1.map (fun r => r.sym))[N]? = some ZeroSymbol ∧
      (addAll (N : Int) NewSymbolTable calls).2
        = (addAll (N : Int) NewSymbolTable (calls.take N)).2 ∧
      GoMap.len (addAll (N : Int) NewSymbolTable calls).2.str2Sym = N ∧
      GoMap.len (addAll (N : Int) NewSymbolTable calls).2.sym2Str = N := by
  rcases List.eq_nil_or_concat calls with rfl | ⟨pre, c, rfl⟩
  · simp at hlen
  · obtain ⟨s, f⟩ := c
    simp only [List.concat_eq_append] at hlen hnd hne ⊢
    have hpre : pre.length = N := by simpa using hlen
    have hmax : (N : Int) ≤ 2 ^ 48 - 1 := by omega
    simp only [List.map_append, List.map_cons, List.map_nil, List.mem_append, List.mem_singleton,
      not_or] at hne
    have hnd1 : (pre.map Prod.fst).Nodup := by
      rw [List.map_append] at hnd
      exact (List.nodup_append.1 hnd).1
    have hs : s ∉ pre.map Prod.fst := by
      rw [List.map_append] at hnd
      intro hmem
      exact (List.nodup_append.1 hnd).2.2 hmem (by simp)
    obtain ⟨h1, _, h3⟩ := addAll_distinct (N : Int) hmax pre NewSymbolTable (by decide) hnd1
      hne.1 (fun s _ => rfl) (by show (1 : Int) + _ ≤ _; omega)
    have hinv := inv_addAll (N : Int) hmax pre NewSymbolTable (inv_fresh _)
    have hget := str2Sym_addAll_of_not_mem (N : Int) pre s NewSymbolTable rfl hs
    have hnext : (addAll (N : Int) NewSymbolTable pre).2.nextNum = (N : Int) + 1 := by
      rw [h3, hpre]
      show (1 : Int) + _ = _
      omega
    have hadd : SymbolTable.add (N : Int) (addAll (N : Int) NewSymbolTable pre).2 s f
        = { sym := ZeroSymbol, err := some Error.errSymbolCountLimitReached,
            tab := (addAll (N : Int) NewSymbolTable pre).2 } := by
      rcases add_cases (N : Int) (addAll (N : Int) NewSymbolTable pre).2 s f with
        ⟨c1, _⟩ | ⟨_, c2, _⟩ | ⟨_, _, _, e3⟩ | ⟨_, _, c4, _⟩
      · exact absurd c1.symm hne.2
      · rw [hget] at c2; cases c2
      · exact e3
      · omega
    have htake : List.take N (pre ++ [(s, f)]) = pre := by
      rw [← hpre]
      simp
    have hcount := hinv.count
    have hleneq := hinv.len_eq
    rw [htake, addAll_append, addAll_cons, hadd]
    refine ⟨?_, ?_, rfl, ?_, ?_⟩
    · simp only [List.map_append, h1, hpre, addAll, List.map_cons, List.map_nil]
    · have hl : ((addAll (N : Int) NewSymbolTable pre).1.map (fun r => r.sym)).length = N := by
        have := congrArg List.length h1
        simpa [hpre] using this
      simp only [List.map_append, addAll, List.map_cons, List.map_nil]
      rw [List.getElem?_append_right (by omega), hl]
      simp
    · show GoMap.len (addAll (N : Int) NewSymbolTable pre).2.str2Sym = N
      omega
    · show GoMap.len (addAll (N : Int) NewSymbolTable pre).2.sym2Str = N
      omega

theorem capacity_exhaustion_witness :
    (addAll 2 NewSymbolTable [("0", 255), ("1", 255), ("aaa", 255)]).1.map (fun r => r.err)
        = [none, none, some Error.errSymbolCountLimitReached] ∧
      GoMap.len (addAll 2 NewSymbolTable [("0", 255), ("1", 255), ("aaa", 255)]).2.str2Sym
        = 2 :=
  ⟨(capacity_exhaustion 2 (by decide) [("0", 255), ("1", 255), ("aaa", 255)] (by decide)
      (by decide) (by decide)).1,
    (capacity_exhaustion 2 (by decide) [("0", 255), ("1", 255), ("aaa", 255)] (by decide)
      (by decide) (by decide)).2.2.2.1⟩

/-- Claim C9. Under a ceiling of at most `2^48 - 1`, in a reachable table every binding
survives any further sequence of `add` calls: if `toSymbol(s) = (y, true)` it still does
afterwards, and if `toString(y) = (s, true)` it still does afterwards. So no `add` removes
an entry, rebinds a string to another symbol or rebinds a symbol to another string. -/
theorem issued_symbols_stable (maxNum : Int) (hmax : maxNum ≤ 2 ^ 48 - 1) (t : SymbolTable)
    (hr : Reachable maxNum t) (calls : List (String × Nat)) (s : String) (y : Symbol) :
    (SymbolTable.toSymbol t s = (y, true) →
        SymbolTable.toSymbol (addAll maxNum t calls).2 s = (y, true)) ∧
      (SymbolTable.toString t y = (s, true) →
        SymbolTable.toString (addAll maxNum t calls).2 y = (s, true)) := by
  have hinv := inv_of_reachable maxNum hmax t hr
  constructor
  · intro h
    rw [toSymbol_eq_iff] at h ⊢
    exact str2Sym_addAll_of_get maxNum calls s y t h
  · intro h
    rw [toString_eq_iff] at h ⊢
    exact sym2Str_addAll_of_get maxNum hmax calls y s t hinv h

theorem issued_symbols_stable_witness :
    SymbolTable.toSymbol (addAll MaxNum (SymbolTable.add MaxNum NewSymbolTable "aaa" 7).tab
        [("bbb", 1), ("aaa", 2)]).2 "aaa" = (1970324836974593, true) ∧
      SymbolTable.toString (addAll MaxNum (SymbolTable.add MaxNum NewSymbolTable "aaa" 7).tab
        [("bbb", 1), ("aaa", 2)]).2 1970324836974593 = ("aaa", true) :=
  ⟨(issued_symbols_stable MaxNum (by decide) (SymbolTable.add MaxNum NewSymbolTable "aaa" 7).tab
      (Reachable.step "aaa" 7 Reachable.fresh) [("bbb", 1), ("aaa", 2)] "aaa"
      1970324836974593).1 (by decide),
    (issued_symbols_stable MaxNum (by decide) (SymbolTable.add MaxNum NewSymbolTable "aaa" 7).tab
      (Reachable.step "aaa" 7 Reachable.fresh) [("bbb", 1), ("aaa", 2)] "aaa"
      1970324836974593).2 (by decide)⟩

/-! ## Arithmetic of the two fields -/

theorem fields_pack (n : Nat) (hn : n < 2 ^ 64) :
    2 ^ 48 * (n / 2 ^ 48 % 2 ^ 16 % 2 ^ 16) + n % 2 ^ 48 = n := by
  omega

theorem fields_inj (a b : Nat) (ha : a < 2 ^ 64) (hb : b < 2 ^ 64)
    (hf : a / 2 ^ 48 % 2 ^ 16 = b / 2 ^ 48 % 2 ^ 16) (hn : a % 2 ^ 48 = b % 2 ^ 48) :
    a = b := by
  omega

theorem fields_lt (f n : Nat) (hn : n < 2 ^ 48) : 2 ^ 48 * (f % 2 ^ 16) + n < 2 ^ 64 := by
  omega

theorem fields_range (n : Nat) (hn : n < 2 ^ 64) :
    n / 2 ^ 48 % 2 ^ 16 = n / 2 ^ 48 ∧ n / 2 ^ 48 % 2 ^ 16 < 2 ^ 16 ∧
      (0 : Int) ≤ ((n % 2 ^ 48 : Nat) : Int) ∧ ((n % 2 ^ 48 : Nat) : Int) ≤ 2 ^ 48 - 1 := by
  omega

/-! ## The encoding of a symbol -/

/-- Claim C12. For every ordinal `n` with `0 ≤ n ≤ 2^48 - 1` that does not exceed the
ceiling and every 16-bit `f`, `newSymbol(n, f)` succeeds with the symbol `(f << 48) | n`,
whose flags are `f` and whose ordinal is `n`. -/
theorem newSymbol_roundtrip (maxNum n : Int) (f : Nat) (h0 : 0 ≤ n) (h1 : n ≤ 2 ^ 48 - 1)
    (hc : n ≤ maxNum) (hf : f < 2 ^ 16) :
    (newSymbol maxNum n f).2 = none ∧
      (newSymbol maxNum n f).1 = (f <<< 48) ||| n.toNat ∧
      Symbol.Flags (newSymbol maxNum n f).1 = f ∧
      Symbol.Num (newSymbol maxNum n f).1 = n := by
  have hnot : ¬ n > maxNum := by omega
  have hshift : (f <<< numLen) % 2 ^ 64 = f <<< 48 := by
    simp only [numLen, flagLen, Nat.shiftLeft_eq]
    omega
  have hnew : newSymbol maxNum n f = (((f <<< numLen) % 2 ^ 64) ||| uint64OfInt64 n, none) := by
    simp [newSymbol, hnot]
  refine ⟨by rw [hnew], ?_, ?_, ?_⟩
  · rw [hnew, hshift, uint64OfInt64_of_nonneg n h0 (by omega)]
  · rw [hnew]
    exact pack_Flags f n hf h0 (by omega)
  · rw [hnew]
    exact pack_Num f n h0 (by omega)

theorem newSymbol_roundtrip_witness :
    (newSymbol MaxNum 281474976710655 65535).2 = none ∧
      (newSymbol MaxNum 281474976710655 65535).1
        = (65535 <<< 48) ||| (281474976710655 : Int).toNat ∧
      Symbol.Flags (newSymbol MaxNum 281474976710655 65535).1 = 65535 ∧
      Symbol.Num (newSymbol MaxNum 281474976710655 65535).1 = 281474976710655 :=
  newSymbol_roundtrip MaxNum 281474976710655 65535 (by decide) (by decide) (by decide)
    (by decide)

/-- Claim C13. Every 64-bit symbol `s` is `(s.Flags() << 48) | s.Num()`, so two 64-bit
symbols are equal exactly when their flags are equal and their ordinals are equal. -/
theorem symbol_determined_by_fields (s s1 s2 : Symbol) (hs : s < 2 ^ 64) (hs1 : s1 < 2 ^ 64)
    (hs2 : s2 < 2 ^ 64) :
    ((Symbol.Flags s <<< numLen) % 2 ^ 64) ||| uint64OfInt64 (Symbol.Num s) = s ∧
      (s1 = s2 ↔ Symbol.Flags s1 = Symbol.Flags s2 ∧ Symbol.Num s1 = Symbol.Num s2) := by
  constructor
  · have hlt : s % 2 ^ 48 < 2 ^ 48 := Nat.mod_lt _ (by norm_num)
    have hnum : uint64OfInt64 (Symbol.Num s) = s % 2 ^ 48 := by
      rw [Symbol.Num_eq, uint64OfInt64_of_nonneg _ (Int.ofNat_nonneg _)
        (by exact_mod_cast Nat.lt_trans hlt (by norm_num)), Int.toNat_ofNat]
    rw [hnum, pack_eq _ _ hlt, Symbol.Flags_eq]
    exact fields_pack s hs
  · constructor
    · intro h
      rw [h]
      exact ⟨rfl, rfl⟩
    · intro h
      obtain ⟨hf, hn⟩ := h
      rw [Symbol.Flags_eq, Symbol.Flags_eq] at hf
      rw [Symbol.Num_eq, Symbol.Num_eq] at hn
      exact fields_inj s1 s2 hs1 hs2 hf (by exact_mod_cast hn)

theorem symbol_determined_by_fields_witness :
    ((Symbol.Flags 18446744073709551615 <<< numLen) % 2 ^ 64)
        ||| uint64OfInt64 (Symbol.Num 18446744073709551615) = 18446744073709551615 ∧
      ((281474976710657 : Symbol) = 1 ↔
        Symbol.Flags 281474976710657 = Symbol.Flags 1 ∧
          Symbol.Num 281474976710657 = Symbol.Num 1) :=
  symbol_determined_by_fields 18446744073709551615 281474976710657 1 (by decide) (by decide)
    (by decide)

/-- Claim C14. For every ceiling, ordinal and flags, `newSymbol(num, f)` fails exactly
when `num > maxNum`; a failure returns the symbol 0 with `errSymbolCountLimitReached`.
The default ceiling `MaxNum` is `2^48 - 1`, the value of the 48-bit mask `numMask`. -/
theorem newSymbol_limit (maxNum num : Int) (f : Nat) :
    ((newSymbol maxNum num f).2 ≠ none ↔ num > maxNum) ∧
      ((newSymbol maxNum num f).2 ≠ none →
        newSymbol maxNum num f = (0, some Error.errSymbolCountLimitReached)) ∧
      MaxNum = 2 ^ 48 - 1 ∧ MaxNum = (numMask : Int) := by
  refine ⟨?_, ?_, MaxNum_eq, rfl⟩
  · by_cases h : num > maxNum
    · simp [newSymbol, h]
    · simp [newSymbol, h]
  · by_cases h : num > maxNum
    · simp [newSymbol, h]
    · simp [newSymbol, h]

/-- Claim C15. The accessors are total functions. For every 64-bit symbol `s`, the
ordinal `s.Num()` lies between 0 and `2^48 - 1`, and `s.Flags()` is the high 16 bits of
`s`, a value below `2^16`. For `ZeroSymbol` both are 0. -/
theorem accessors_in_range (s : Symbol) (hs : s < 2 ^ 64) :
    0 ≤ Symbol.Num s ∧ Symbol.Num s ≤ 2 ^ 48 - 1 ∧
      Symbol.Flags s = s / 2 ^ 48 ∧ Symbol.Flags s < 2 ^ 16 ∧
      Symbol.Num ZeroSymbol = 0 ∧ Symbol.Flags ZeroSymbol = 0 := by
  obtain ⟨h1, h2, h3, h4⟩ := fields_range s hs
  refine ⟨?_, ?_, ?_, ?_, by decide, by decide⟩
  · rw [Symbol.Num_eq]
    exact h3
  · rw [Symbol.Num_eq]
    exact h4
  · rw [Symbol.Flags_eq]
    exact h1
  · rw [Symbol.Flags_eq]
    exact h2

theorem accessors_in_range_witness :
    0 ≤ Symbol.Num 18446744073709551615 ∧ Symbol.Num 18446744073709551615 ≤ 2 ^ 48 - 1 ∧
      Symbol.Flags 18446744073709551615 = 18446744073709551615 / 2 ^ 48 ∧
      Symbol.Flags 18446744073709551615 < 2 ^ 16 ∧
      Symbol.Num ZeroSymbol = 0 ∧ Symbol.Flags ZeroSymbol = 0 :=
  accessors_in_range 18446744073709551615 (by decide)

/-! ## The counter -/

/-- In a table satisfying the invariant, a call of `add` never lowers the counter. -/
theorem nextNum_le_add (maxNum : Int) (hmax : maxNum ≤ 2 ^ 48 - 1) (t : SymbolTable)
    (hinv : Inv maxNum t) (str : String) (flags : Nat) :
    t.nextNum ≤ (SymbolTable.add maxNum t str flags).tab.nextNum := by
  rcases add_tab_cases maxNum t str flags with e | ⟨_, _, hle, e⟩
  · rw [e]
  · rw [e]
    have h1 := hinv.one_le
    have hnext : (inserted t str flags).nextNum = t.nextNum + 1 :=
      wrapInt64_succ t.nextNum (by omega) (by omega)
    show t.nextNum ≤ (inserted t str flags).nextNum
    omega

theorem nextNum_le_addAll (maxNum : Int) (hmax : maxNum ≤ 2 ^ 48 - 1)
    (calls : List (String × Nat)) :
    ∀ t : SymbolTable, Inv maxNum t → t.nextNum ≤ (addAll maxNum t calls).2.nextNum := by
  induction calls with
  | nil => intro t _; exact le_refl _
  | cons c calls ih =>
    intro t hinv
    obtain ⟨str, flags⟩ := c
    exact le_trans (nextNum_le_add maxNum hmax t hinv str flags)
      (ih _ (inv_add maxNum hmax t hinv str flags))

/-- Claim C16. Under a ceiling of at most `2^48 - 1` (the default `MaxNum` included), in
every reachable table the counter is 1 plus the number of entries of the forward index,
and of the reverse index. So the table has no entries exactly when the counter is 1 and
has an entry exactly when the counter exceeds 1; and a table whose counter exceeds 1 keeps
a counter above 1 and at least one entry through any further sequence of `add` calls. -/
theorem two_state_machine (maxNum : Int) (hmax : maxNum ≤ 2 ^ 48 - 1) (t : SymbolTable)
    (hr : Reachable maxNum t) (calls : List (String × Nat)) :
    t.nextNum = 1 + (GoMap.len t.str2Sym : Int) ∧
      t.nextNum = 1 + (GoMap.len t.sym2Str : Int) ∧
      (GoMap.len t.str2Sym = 0 ↔ t.nextNum = 1) ∧
      (1 ≤ GoMap.len t.str2Sym ↔ 1 < t.nextNum) ∧
      (1 < t.nextNum →
        1 < (addAll maxNum t calls).2.nextNum ∧
          1 ≤ GoMap.len (addAll maxNum t calls).2.str2Sym ∧
          1 ≤ GoMap.len (addAll maxNum t calls).2.sym2Str) := by
  have hinv := inv_of_reachable maxNum hmax t hr
  have hc := hinv.count
  have hl := hinv.len_eq
  have hinv2 := inv_addAll maxNum hmax calls t hinv
  have hc2 := hinv2.count
  have hl2 := hinv2.len_eq
  have hmono := nextNum_le_addAll maxNum hmax calls t hinv
  refine ⟨hc, by omega, by omega, by omega, ?_⟩
  intro h
  omega

theorem two_state_machine_witness :
    (SymbolTable.add MaxNum NewSymbolTable "aaa" 7).tab.nextNum
        = 1 + (GoMap.len (SymbolTable.add MaxNum NewSymbolTable "aaa" 7).tab.str2Sym : Int) ∧
      1 < (addAll MaxNum (SymbolTable.add MaxNum NewSymbolTable "aaa" 7).tab
        [("", 1), ("aaa", 2), ("bbb", 3)]).2.nextNum :=
  ⟨(two_state_machine MaxNum (by decide) (SymbolTable.add MaxNum NewSymbolTable "aaa" 7).tab
      (Reachable.step "aaa" 7 Reachable.fresh) [("", 1), ("aaa", 2), ("bbb", 3)]).1,
    ((two_state_machine MaxNum (by decide) (SymbolTable.add MaxNum NewSymbolTable "aaa" 7).tab
      (Reachable.step "aaa" 7 Reachable.fresh) [("", 1), ("aaa", 2), ("bbb", 3)]).2.2.2.2
      (by decide)).1⟩

/-- Claim C20. With the ceiling fixed at `N`, `0 ≤ N ≤ 2^48 - 1`, in every reachable table
the counter satisfies `1 ≤ nextNum ≤ N + 1`. Hence the ordinal that `add` passes to
`newSymbol` is positive, the increment `nextNum++` does not wrap around, and the symbol a
successful `add` returns for 16-bit flags `f` is below `2^64` with flags `f` and the
counter as its ordinal: the ordinal does not reach the flag bits. -/
theorem counter_bounds (N : Int) (h0 : 0 ≤ N) (hN : N ≤ 2 ^ 48 - 1) (t : SymbolTable)
    (hr : Reachable N t) (s : String) (f : Nat) :
    1 ≤ t.nextNum ∧ t.nextNum ≤ N + 1 ∧
      wrapInt64 (t.nextNum + 1) = t.nextNum + 1 ∧
      (f < 2 ^ 16 → (SymbolTable.add N t s f).err = none →
        (SymbolTable.add N t s f).sym < 2 ^ 64 ∧
          Symbol.Flags (SymbolTable.add N t s f).sym = f ∧
          Symbol.Num (SymbolTable.add N t s f).sym = t.nextNum) := by
  have hinv := inv_of_reachable N hN t hr
  have h1 := hinv.one_le
  have h2 : t.nextNum ≤ N + 1 := by
    rcases hinv.le_ceiling with h | h
    · omega
    · exact h
  refine ⟨h1, h2, wrapInt64_succ t.nextNum (by omega) (by omega), ?_⟩
  intro hf h
  obtain ⟨_, _, hle, e⟩ := add_ok N t s f h
  rw [e]
  refine ⟨?_, pack_Flags f t.nextNum hf (by omega) (by omega),
    pack_Num f t.nextNum (by omega) (by omega)⟩
  show packed t f < 2 ^ 64
  unfold packed
  rw [uint64OfInt64_of_nonneg t.nextNum (by omega) (by omega),
    pack_eq f t.nextNum.toNat (by omega)]
  exact fields_lt f t.nextNum.toNat (by omega)

theorem counter_bounds_witness :
    (1 : Int) ≤ (SymbolTable.add 1 NewSymbolTable "aaa" 65535).tab.nextNum ∧
      (SymbolTable.add 1 NewSymbolTable "aaa" 65535).tab.nextNum ≤ 1 + 1 ∧
      Symbol.Flags (SymbolTable.add 1 NewSymbolTable "aaa" 65535).sym = 65535 :=
  ⟨(counter_bounds 1 (by decide) (by decide) (SymbolTable.add 1 NewSymbolTable "aaa" 65535).tab
      (Reachable.step "aaa" 65535 Reachable.fresh) "bbb" 0).1,
    (counter_bounds 1 (by decide) (by decide) (SymbolTable.add 1 NewSymbolTable "aaa" 65535).tab
      (Reachable.step "aaa" 65535 Reachable.fresh) "bbb" 0).2.1,
    ((counter_bounds 1 (by decide) (by decide) NewSymbolTable Reachable.fresh "aaa" 65535).2.2.2
      (by decide) (by decide)).2.1⟩

/-! ## The order of the checks in `add` -/

/-- On a table with allocated maps, the outcome of `add` is decided by the emptiness of the
string, its membership in the forward index and the comparison of the counter with the
ceiling, in that order. -/
theorem add_outcome_alloc (maxNum : Int) (t : SymbolTable) (s : String) (f : Nat) :
    ((SymbolTable.add maxNum t s f).err = some Error.errEmptyString ↔ s = "") ∧
      ((∃ e, (SymbolTable.add maxNum t s f).err = some e ∧
            errorsIs e Error.errStringAlreadyAdded = true) ↔
          s ≠ "" ∧ (GoMap.get t.str2Sym s).isSome = true) ∧
      ((SymbolTable.add maxNum t s f).err = some Error.errSymbolCountLimitReached ↔
          s ≠ "" ∧ GoMap.get t.str2Sym s = none ∧ maxNum < t.nextNum) ∧
      ((SymbolTable.add maxNum t s f).err = none ↔
          s ≠ "" ∧ GoMap.get t.str2Sym s = none ∧ t.nextNum ≤ maxNum) ∧
      (maxNum < t.nextNum → s = "" →
          (SymbolTable.add maxNum t s f).err = some Error.errEmptyString) ∧
      (maxNum < t.nextNum → s ≠ "" → (GoMap.get t.str2Sym s).isSome = true →
          (SymbolTable.add maxNum t s f).err
            = some (Error.failedToAdd s Error.errStringAlreadyAdded)) := by
  rcases add_cases maxNum t s f with ⟨h1, e⟩ | ⟨h1, h2, e⟩ | ⟨h1, h2, h3, e⟩ | ⟨h1, h2, h3, e⟩
  · rw [e]
    simp [h1, errorsIs]
  · rw [e]
    have h2' : GoMap.get t.str2Sym s ≠ none := by
      intro hn
      rw [hn] at h2
      cases h2
    simp [h1, h2, h2', errorsIs]
  · rw [e]
    simp [h1, h2, h3, errorsIs]
  · rw [e]
    have h3' : ¬ maxNum < t.nextNum := by omega
    simp [h1, h2, h3, h3']

/-- On a table with allocated maps, `TableValue.add` returns what `SymbolTable.add`
returns and leaves the table that `SymbolTable.add` leaves: it never panics. -/
theorem tableValue_add_toValue (maxNum : Int) (t : SymbolTable) (s : String) (f : Nat) :
    TableValue.add maxNum (SymbolTable.toValue t) s f
      = AddOutcome.returned (SymbolTable.add maxNum t s f).sym (SymbolTable.add maxNum t s f).err
          (SymbolTable.toValue (SymbolTable.add maxNum t s f).tab) := by
  rcases add_cases maxNum t s f with ⟨h1, e⟩ | ⟨h1, h2, e⟩ | ⟨h1, h2, h3, e⟩ | ⟨h1, h2, h3, e⟩
  · rw [e]
    simp [TableValue.add, h1]
  · rw [e]
    simp [TableValue.add, SymbolTable.toValue, MapValue.get, h1, h2]
  · rw [e]
    simp [TableValue.add, SymbolTable.toValue, MapValue.get, h1, h2, newSymbol, h3]
  · rw [e]
    have h3' : ¬ maxNum < t.nextNum := by omega
    simp [TableValue.add, SymbolTable.toValue, MapValue.get, MapValue.set, h1, h2, newSymbol,
      h3', packed, inserted]

/-- Claim C18, as amended. For every value of the table struct, nil maps included, every
string and all flags, `add` returns `errEmptyString` exactly when the string is empty; an
error wrapping `errStringAlreadyAdded` exactly when the string is non-empty and a key of
the forward index; `errSymbolCountLimitReached` exactly when the string is non-empty, not
a key of the forward index, and the counter exceeds the ceiling; and it succeeds exactly
when none of these holds and both maps of the table are allocated. So with the counter
above the ceiling, the empty string is still reported as empty and a present string as
already added. -/
theorem add_outcome_order (maxNum : Int) (t : TableValue) (s : String) (f : Nat) :
    ((TableValue.add maxNum t s f).error = some Error.errEmptyString ↔ s = "") ∧
      ((∃ e, (TableValue.add maxNum t s f).error = some e ∧
            errorsIs e Error.errStringAlreadyAdded = true) ↔
          s ≠ "" ∧ (MapValue.get t.str2Sym s).isSome = true) ∧
      ((TableValue.add maxNum t s f).error = some Error.errSymbolCountLimitReached ↔
          s ≠ "" ∧ MapValue.get t.str2Sym s = none ∧ maxNum < t.nextNum) ∧
      ((TableValue.add maxNum t s f).succeeded = true ↔
          s ≠ "" ∧ MapValue.get t.str2Sym s = none ∧ t.nextNum ≤ maxNum ∧
            t.str2Sym ≠ MapValue.nilMap ∧ t.sym2Str ≠ MapValue.nilMap) ∧
      (maxNum < t.nextNum → s = "" →
          (TableValue.add maxNum t s f).error = some Error.errEmptyString) ∧
      (maxNum < t.nextNum → s ≠ "" → (MapValue.get t.str2Sym s).isSome = true →
          (TableValue.add maxNum t s f).error
            = some (Error.failedToAdd s Error.errStringAlreadyAdded)) := by
  obtain ⟨m1, m2, n⟩ := t
  by_cases h1 : s = ""
  · simp [TableValue.add, h1, AddOutcome.error, AddOutcome.succeeded, errorsIs]
  · cases hget : MapValue.get m1 s with
    | some y =>
      simp [TableValue.add, h1, hget, AddOutcome.error, AddOutcome.succeeded, errorsIs]
    | none =>
      by_cases h3 : maxNum < n
      · have h3' : ¬ n ≤ maxNum := by omega
        simp [TableValue.add, h1, hget, newSymbol, h3, h3', AddOutcome.error,
          AddOutcome.succeeded, errorsIs]
      · have h3' : n ≤ maxNum := by omega
        cases m1 with
        | nilMap =>
          simp [TableValue.add, h1, MapValue.get, MapValue.set, newSymbol, h3, h3',
            AddOutcome.error, AddOutcome.succeeded, errorsIs]
        | made l1 =>
          cases m2 with
          | nilMap =>
            simp [TableValue.add, h1, hget, MapValue.set, newSymbol, h3, h3',
              AddOutcome.error, AddOutcome.succeeded, errorsIs]
          | made l2 =>
            simp [TableValue.add, h1, hget, MapValue.set, newSymbol, h3, h3',
              AddOutcome.error, AddOutcome.succeeded, errorsIs]

theorem add_outcome_order_witness :
    (TableValue.add 0 (SymbolTable.toValue (SymbolTable.add 1 NewSymbolTable "aaa" 1).tab)
        "" 2).error = some Error.errEmptyString ∧
      (TableValue.add 0 (SymbolTable.toValue (SymbolTable.add 1 NewSymbolTable "aaa" 1).tab)
        "aaa" 2).error = some (Error.failedToAdd "aaa" Error.errStringAlreadyAdded) ∧
      (TableValue.add 0 (SymbolTable.toValue (SymbolTable.add 1 NewSymbolTable "aaa" 1).tab)
        "bbb" 2).error = some Error.errSymbolCountLimitReached ∧
      (TableValue.add 2 (SymbolTable.toValue (SymbolTable.add 1 NewSymbolTable "aaa" 1).tab)
        "bbb" 2).succeeded = true :=
  ⟨(add_outcome_order 0 (SymbolTable.toValue (SymbolTable.add 1 NewSymbolTable "aaa" 1).tab)
      "" 2).2.2.2.2.1 (by decide) rfl,
    (add_outcome_order 0 (SymbolTable.toValue (SymbolTable.add 1 NewSymbolTable "aaa" 1).tab)
      "aaa" 2).2.2.2.2.2 (by decide) (by decide) (by decide),
    (add_outcome_order 0 (SymbolTable.toValue (SymbolTable.add 1 NewSymbolTable "aaa" 1).tab)
      "bbb" 2).2.2.1.2 ⟨by decide, by decide, by decide⟩,
    (add_outcome_order 2 (SymbolTable.toValue (SymbolTable.add 1 NewSymbolTable "aaa" 1).tab)
      "bbb" 2).2.2.2.1.2 ⟨by decide, by decide, by decide, by decide, by decide⟩⟩

/-- On the zero value of the table struct, with the default ceiling, `add("a", 1)` meets
none of the three error conditions (the string is non-empty, it is not a key, the counter 0
is within the ceiling) and yet does not succeed: it increments the counter and panics at
the assignment to the nil forward index. -/
theorem add_outcome_order_counterexample :
    TableValue.add MaxNum TableValue.zero "a" 1
        = AddOutcome.panicked
            { str2Sym := MapValue.nilMap, sym2Str := MapValue.nilMap, nextNum := 1 } ∧
      ¬ ((TableValue.add MaxNum TableValue.zero "a" 1).succeeded = true ↔
          ("a" ≠ "" ∧ MapValue.get TableValue.zero.str2Sym "a" = none ∧
            TableValue.zero.nextNum ≤ MaxNum)) := by
  decide

/-! ## Readers and writers are views of one table -/

/-- After a successful `add`, both lookups find the new pair. -/
theorem lookups_after_add (maxNum : Int) (t : SymbolTable) (s : String) (f : Nat)
    (h : (SymbolTable.add maxNum t s f).err = none) :
    SymbolTable.toSymbol (SymbolTable.add maxNum t s f).tab s
        = ((SymbolTable.add maxNum t s f).sym, true) ∧
      SymbolTable.toString (SymbolTable.add maxNum t s f).tab (SymbolTable.add maxNum t s f).sym
        = (s, true) := by
  obtain ⟨_, _, _, e⟩ := add_ok maxNum t s f h
  rw [e]
  exact ⟨(toSymbol_eq_iff _ _ _).2 (GoMap.get_set_self _ _ _),
    (toString_eq_iff _ _ _).2 (GoMap.get_set_self _ _ _)⟩

/-- Claim C17. For a table `t` stored at address `p`: the writer's `Add` returns what
`t.add` returns and stores at `p` the table `t.add` leaves; the reader's `ToString` and
`ToSymbol` return what `t.toString` and `t.toSymbol` return and leave the heap as it was.
In particular, after a successful `Add(s, f) = y` through the writer, the reader of the same
table, built before the call, finds `(s, true)` for `y` and `(y, true)` for `s`. -/
theorem facades_live_view (maxNum : Int) (h : Heap) (p : Ptr) (t : SymbolTable)
    (hp : GoMap.get h p = some t) (s : String) (f : Nat) (y : Symbol) (s' : String) :
    writer.Add maxNum (SymbolTable.Writer p) s f h
        = some (((SymbolTable.add maxNum t s f).sym, (SymbolTable.add maxNum t s f).err),
            GoMap.set h p (SymbolTable.add maxNum t s f).tab) ∧
      GoMap.get (GoMap.set h p (SymbolTable.add maxNum t s f).tab) p
        = some (SymbolTable.add maxNum t s f).tab ∧
      reader.ToString (SymbolTable.Reader p) y h = some (SymbolTable.toString t y, h) ∧
      reader.ToSymbol (SymbolTable.Reader p) s' h = some (SymbolTable.toSymbol t s', h) ∧
      ((SymbolTable.add maxNum t s f).err = none →
        reader.ToString (SymbolTable.Reader p) (SymbolTable.add maxNum t s f).sym
            (GoMap.set h p (SymbolTable.add maxNum t s f).tab)
          = some ((s, true), GoMap.set h p (SymbolTable.add maxNum t s f).tab) ∧
        reader.ToSymbol (SymbolTable.Reader p) s
            (GoMap.set h p (SymbolTable.add maxNum t s f).tab)
          = some (((SymbolTable.add maxNum t s f).sym, true),
              GoMap.set h p (SymbolTable.add maxNum t s f).tab)) := by
  have hset := GoMap.get_set_self h p (SymbolTable.add maxNum t s f).tab
  refine ⟨?_, hset, ?_, ?_, ?_⟩
  · simp [writer.Add, SymbolTable.Writer, hp]
  · simp [reader.ToString, SymbolTable.Reader, hp]
  · simp [reader.ToSymbol, SymbolTable.Reader, hp]
  · intro hok
    obtain ⟨h1, h2⟩ := lookups_after_add maxNum t s f hok
    constructor
    · simp only [reader.ToString, SymbolTable.Reader, hset, h2]
    · simp only [reader.ToSymbol, SymbolTable.Reader, hset, h1]

theorem facades_live_view_witness :
    writer.Add MaxNum (SymbolTable.Writer 0) "foo" 1 [(0, NewSymbolTable)]
        = some ((281474976710657, none),
            [(0, (SymbolTable.add MaxNum NewSymbolTable "foo" 1).tab)]) ∧
      reader.ToString (SymbolTable.Reader 0) 281474976710657
          [(0, (SymbolTable.add MaxNum NewSymbolTable "foo" 1).tab)]
        = some (("foo", true), [(0, (SymbolTable.add MaxNum NewSymbolTable "foo" 1).tab)]) ∧
      reader.ToSymbol (SymbolTable.Reader 0) "bar"
          [(0, (SymbolTable.add MaxNum NewSymbolTable "foo" 1).tab)]
        = some ((ZeroSymbol, false),
            [(0, (SymbolTable.add MaxNum NewSymbolTable "foo" 1).tab)]) :=
  ⟨(facades_live_view MaxNum [(0, NewSymbolTable)] 0 NewSymbolTable rfl "foo" 1 0 "").1,
    ((facades_live_view MaxNum [(0, NewSymbolTable)] 0 NewSymbolTable rfl "foo" 1 0 "").2.2.2.2
      (by decide)).1,
    (facades_live_view MaxNum [(0, (SymbolTable.add MaxNum NewSymbolTable "foo" 1).tab)] 0
      (SymbolTable.add MaxNum NewSymbolTable "foo" 1).tab rfl "foo" 1 0 "bar").2.2.2.1⟩

/-! ## Lookups find exactly what was added -/

theorem toString_of_get_none (t : SymbolTable) (y : Symbol)
    (h : GoMap.get t.sym2Str y = none) : SymbolTable.toString t y = ("", false) := by
  unfold SymbolTable.toString
  rw [h]

theorem toSymbol_of_get_none (t : SymbolTable) (s : String)
    (h : GoMap.get t.str2Sym s = none) : SymbolTable.toSymbol t s = (ZeroSymbol, false) := by
  unfold SymbolTable.toSymbol
  rw [h]
  rfl

/-- Every successful call of a sequence leaves its pair in both indices of the final
table. -/
theorem addAll_success_found (maxNum : Int) (hmax : maxNum ≤ 2 ^ 48 - 1)
    (calls : List (String × Nat)) :
    ∀ t : SymbolTable, Inv maxNum t → ∀ (c : String × Nat) (r : AddResult),
      (c, r) ∈ List.zip calls (addAll maxNum t calls).1 → r.err = none →
        GoMap.get (addAll maxNum t calls).2.str2Sym c.1 = some r.sym ∧
          GoMap.get (addAll maxNum t calls).2.sym2Str r.sym = some c.1 := by
  induction calls with
  | nil =>
    intro t _ c r hmem _
    simp at hmem
  | cons c0 calls ih =>
    intro t hinv c r hmem hok
    obtain ⟨str, flags⟩ := c0
    rw [addAll_cons] at hmem ⊢
    have hinv1 := inv_add maxNum hmax t hinv str flags
    simp only [List.zip_cons_cons, List.mem_cons, Prod.mk.injEq] at hmem
    rcases hmem with ⟨hc, hr⟩ | hmem
    · subst hc
      subst hr
      obtain ⟨_, _, _, e⟩ := add_ok maxNum t str flags hok
      have h1 : GoMap.get (SymbolTable.add maxNum t str flags).tab.str2Sym str
          = some (SymbolTable.add maxNum t str flags).sym := by
        rw [e]
        exact GoMap.get_set_self _ _ _
      have h2 : GoMap.get (SymbolTable.add maxNum t str flags).tab.sym2Str
          (SymbolTable.add maxNum t str flags).sym = some str := by
        rw [e]
        exact GoMap.get_set_self _ _ _
      exact ⟨str2Sym_addAll_of_get maxNum calls str _ _ h1,
        sym2Str_addAll_of_get maxNum hmax calls _ str _ hinv1 h2⟩
    · exact ih _ hinv1 c r hmem hok

/-- A string that is not in the forward index and that no successful call of a sequence
adds is not in the forward index of the final table. -/
theorem addAll_str_absent (maxNum : Int) (calls : List (String × Nat)) (s : String) :
    ∀ t : SymbolTable, GoMap.get t.str2Sym s = none →
      (∀ (c : String × Nat) (r : AddResult),
        (c, r) ∈ List.zip calls (addAll maxNum t calls).1 → c.1 = s → r.err ≠ none) →
      GoMap.get (addAll maxNum t calls).2.str2Sym s = none := by
  induction calls with
  | nil => intro t h _; exact h
  | cons c0 calls ih =>
    intro t h hall
    obtain ⟨str, flags⟩ := c0
    rw [addAll_cons] at hall ⊢
    apply ih
    · rcases add_tab_cases maxNum t str flags with e | ⟨_, _, _, e⟩
      · rw [e]; exact h
      · have hne : s ≠ str := by
          intro hs
          have := hall (str, flags) (SymbolTable.add maxNum t str flags)
            (by simp [List.zip_cons_cons]) hs.symm
          rw [e] at this
          exact this rfl
        rw [e]
        show GoMap.get (GoMap.set t.str2Sym str (packed t flags)) s = none
        rw [GoMap.get_set_ne _ _ _ _ hne]
        exact h
    · intro c r hmem hc
      exact hall c r (by simp [List.zip_cons_cons, hmem]) hc

/-- A symbol that is not in the reverse index and that no successful call of a sequence
returns is not in the reverse index of the final table. -/
theorem addAll_sym_absent (maxNum : Int) (calls : List (String × Nat)) (y : Symbol) :
    ∀ t : SymbolTable, GoMap.get t.sym2Str y = none →
      (∀ r ∈ (addAll maxNum t calls).1, r.err = none → r.sym ≠ y) →
      GoMap.get (addAll maxNum t calls).2.sym2Str y = none := by
  induction calls with
  | nil => intro t h _; exact h
  | cons c0 calls ih =>
    intro t h hall
    obtain ⟨str, flags⟩ := c0
    rw [addAll_cons] at hall ⊢
    apply ih
    · rcases add_tab_cases maxNum t str flags with e | ⟨_, _, _, e⟩
      · rw [e]; exact h
      · have hne : y ≠ packed t flags := by
          intro hy
          have := hall (SymbolTable.add maxNum t str flags) (by simp)
          rw [e] at this
          exact this rfl hy.symm
        rw [e]
        show GoMap.get (GoMap.set t.sym2Str (packed t flags) str) y = none
        rw [GoMap.get_set_ne _ _ _ _ hne]
        exact h
    · intro r hmem hok
      exact hall r (by simp [hmem]) hok

/-- Claim C11. Under a ceiling of at most `2^48 - 1` (the default `MaxNum` included), in
the table that a sequence of `add` calls leaves of a fresh table: for every call
`add(s, _)` of the sequence that succeeded with `y`, `toSymbol(s)` returns `(y, true)` and
`toString(y)` returns `(s, true)`; `toSymbol(s)` returns `(ZeroSymbol, false)` when no
call adding `s` succeeded; and `toString(y)` returns `("", false)` when no successful call
returned `y`. -/
theorem lookup_hits_exactly (maxNum : Int) (hmax : maxNum ≤ 2 ^ 48 - 1)
    (calls : List (String × Nat)) (s : String) (y : Symbol) :
    (∀ (c : String × Nat) (r : AddResult),
        (c, r) ∈ List.zip calls (addAll maxNum NewSymbolTable calls).1 → r.err = none →
          SymbolTable.toSymbol (addAll maxNum NewSymbolTable calls).2 c.1 = (r.sym, true) ∧
            SymbolTable.toString (addAll maxNum NewSymbolTable calls).2 r.sym = (c.1, true)) ∧
      ((∀ (c : String × Nat) (r : AddResult),
          (c, r) ∈ List.zip calls (addAll maxNum NewSymbolTable calls).1 →
            c.1 = s → r.err ≠ none) →
        SymbolTable.toSymbol (addAll maxNum NewSymbolTable calls).2 s = (ZeroSymbol, false)) ∧
      ((∀ r ∈ (addAll maxNum NewSymbolTable calls).1, r.err = none → r.sym ≠ y) →
        SymbolTable.toString (addAll maxNum NewSymbolTable calls).2 y = ("", false)) := by
  refine ⟨?_, ?_, ?_⟩
  · intro c r hmem hok
    obtain ⟨h1, h2⟩ :=
      addAll_success_found maxNum hmax calls NewSymbolTable (inv_fresh maxNum) c r hmem hok
    exact ⟨(toSymbol_eq_iff _ _ _).2 h1, (toString_eq_iff _ _ _).2 h2⟩
  · intro hall
    exact toSymbol_of_get_none _ _ (addAll_str_absent maxNum calls s NewSymbolTable rfl hall)
  · intro hall
    exact toString_of_get_none _ _ (addAll_sym_absent maxNum calls y NewSymbolTable rfl hall)

theorem lookup_hits_exactly_witness :
    SymbolTable.toSymbol (addAll MaxNum NewSymbolTable [("aaa", 255), ("bbb", 65280)]).2 "bbb"
        = (18374686479671623682, true) ∧
      SymbolTable.toString (addAll MaxNum NewSymbolTable [("aaa", 255), ("bbb", 65280)]).2
        18374686479671623682 = ("bbb", true) ∧
      SymbolTable.toSymbol (addAll MaxNum NewSymbolTable [("aaa", 255), ("bbb", 65280)]).2 "zzz"
        = (ZeroSymbol, false) ∧
      SymbolTable.toString (addAll MaxNum NewSymbolTable [("aaa", 255), ("bbb", 65280)]).2
        ZeroSymbol = ("", false) :=
  ⟨((lookup_hits_exactly MaxNum (by decide) [("aaa", 255), ("bbb", 65280)] "zzz" ZeroSymbol).1
      ("bbb", 65280)
      (SymbolTable.add MaxNum (SymbolTable.add MaxNum NewSymbolTable "aaa" 255).tab "bbb" 65280)
      (by decide) (by decide)).1,
    ((lookup_hits_exactly MaxNum (by decide) [("aaa", 255), ("bbb", 65280)] "zzz" ZeroSymbol).1
      ("bbb", 65280)
      (SymbolTable.add MaxNum (SymbolTable.add MaxNum NewSymbolTable "aaa" 255).tab "bbb" 65280)
      (by decide) (by decide)).2,
    (lookup_hits_exactly MaxNum (by decide) [("aaa", 255), ("bbb", 65280)] "zzz" ZeroSymbol).2.1
      (fun c r hmem hc =>
        (by decide : ∀ q ∈ List.zip [("aaa", 255), ("bbb", 65280)]
            (addAll MaxNum NewSymbolTable [("aaa", 255), ("bbb", 65280)]).1,
          q.1.1 = "zzz" → q.2.err ≠ none) (c, r) hmem hc),
    (lookup_hits_exactly MaxNum (by decide) [("aaa", 255), ("bbb", 65280)] "zzz" ZeroSymbol).2.2
      (by decide)⟩

/-! ## Ordinals are never shared -/

/-- Under a ceiling of at most `2^48 - 1`, two keys of the reverse index of a reachable
table that have the same ordinal are the same symbol. -/
theorem num_inj_of_reachable (maxNum : Int) (hmax : maxNum ≤ 2 ^ 48 - 1) (t : SymbolTable)
    (hr : Reachable maxNum t) :
    ∀ (y1 y2 : Symbol) (s1 s2 : String), GoMap.get t.sym2Str y1 = some s1 →
      GoMap.get t.sym2Str y2 = some s2 → Symbol.Num y1 = Symbol.Num y2 → y1 = y2 := by
  induction hr with
  | fresh =>
    intro y1 y2 s1 s2 h1 _ _
    simp [NewSymbolTable, GoMap.get] at h1
  | @step t str flags hr1 ih =>
    intro y1 y2 s1 s2 h1 h2 hnum
    have hinv := inv_of_reachable maxNum hmax t hr1
    rcases add_tab_cases maxNum t str flags with e | ⟨_, _, hle, e⟩
    · rw [e] at h1 h2
      exact ih y1 y2 s1 s2 h1 h2 hnum
    · rw [e] at h1 h2
      have h1 : GoMap.get (GoMap.set t.sym2Str (packed t flags) str) y1 = some s1 := h1
      have h2 : GoMap.get (GoMap.set t.sym2Str (packed t flags) str) y2 = some s2 := h2
      have hone := hinv.one_le
      have hp : Symbol.Num (packed t flags) = t.nextNum :=
        pack_Num flags t.nextNum (by omega) (by omega)
      by_cases e1 : y1 = packed t flags
      · by_cases e2 : y2 = packed t flags
        · rw [e1, e2]
        · rw [GoMap.get_set_ne _ _ _ _ e2] at h2
          have := (hinv.num_lt y2 s2 h2).2
          rw [e1, hp] at hnum
          omega
      · rw [GoMap.get_set_ne _ _ _ _ e1] at h1
        by_cases e2 : y2 = packed t flags
        · have := (hinv.num_lt y1 s1 h1).2
          rw [e2, hp] at hnum
          omega
        · rw [GoMap.get_set_ne _ _ _ _ e2] at h2
          exact ih y1 y2 s1 s2 h1 h2 hnum

/-- Claim C19. Under a ceiling of at most `2^48 - 1`, in every reachable table two
distinct symbols that are found have distinct ordinals. So when `add(s, f)` has succeeded
with `y` for 16-bit flags `f`, then after any further sequence of `add` calls the symbol
with the ordinal of `y` and other 16-bit flags `f'` is not found: `toString` returns
`("", false)` for `(f' << 48) | y.Num()`. -/
theorem ordinals_not_shared (maxNum : Int) (hmax : maxNum ≤ 2 ^ 48 - 1) (t : SymbolTable)
    (hr : Reachable maxNum t) (y1 y2 : Symbol) (s1 s2 : String) (s : String) (f f' : Nat)
    (calls : List (String × Nat)) :
    (SymbolTable.toString t y1 = (s1, true) → SymbolTable.toString t y2 = (s2, true) →
        y1 ≠ y2 → Symbol.Num y1 ≠ Symbol.Num y2) ∧
      ((SymbolTable.add maxNum t s f).err = none → f < 2 ^ 16 → f' < 2 ^ 16 → f' ≠ f →
        SymbolTable.toString (addAll maxNum (SymbolTable.add maxNum t s f).tab calls).2
            (((f' <<< numLen) % 2 ^ 64)
              ||| uint64OfInt64 (Symbol.Num (SymbolTable.add maxNum t s f).sym))
          = ("", false)) := by
  constructor
  · intro h1 h2 hne hnum
    rw [toString_eq_iff] at h1 h2
    exact hne (num_inj_of_reachable maxNum hmax t hr y1 y2 s1 s2 h1 h2 hnum)
  · intro hok hf hf' hne
    have hinv := inv_of_reachable maxNum hmax t hr
    have hone := hinv.one_le
    have hr1 : Reachable maxNum (SymbolTable.add maxNum t s f).tab := Reachable.step s f hr
    have hr2 := reachable_addAll maxNum calls _ hr1
    have hinv1 := inv_of_reachable maxNum hmax _ hr1
    obtain ⟨_, _, hle, e⟩ := add_ok maxNum t s f hok
    have hy : GoMap.get (SymbolTable.add maxNum t s f).tab.sym2Str
        (SymbolTable.add maxNum t s f).sym = some s := by
      rw [e]
      exact GoMap.get_set_self _ _ _
    have hy2 := sym2Str_addAll_of_get maxNum hmax calls _ s _ hinv1 hy
    have hnum : Symbol.Num (SymbolTable.add maxNum t s f).sym = t.nextNum := by
      rw [e]
      exact pack_Num f t.nextNum (by omega) (by omega)
    have hflags : Symbol.Flags (SymbolTable.add maxNum t s f).sym = f := by
      rw [e]
      exact pack_Flags f t.nextNum hf (by omega) (by omega)
    apply toString_of_get_none
    rw [hnum]
    cases hget : GoMap.get (addAll maxNum (SymbolTable.add maxNum t s f).tab calls).2.sym2Str
        (((f' <<< numLen) % 2 ^ 64) ||| uint64OfInt64 t.nextNum) with
    | none => rfl
    | some s0 =>
      exfalso
      have heq := num_inj_of_reachable maxNum hmax _ hr2 _ _ s0 s hget hy2
        (by rw [pack_Num f' t.nextNum (by omega) (by omega), hnum])
      have hfl : Symbol.Flags (((f' <<< numLen) % 2 ^ 64) ||| uint64OfInt64 t.nextNum) = f' :=
        pack_Flags f' t.nextNum hf' (by omega) (by omega)
      rw [heq, hflags] at hfl
      exact hne hfl.symm

theorem ordinals_not_shared_witness :
    SymbolTable.toString
        (addAll MaxNum (SymbolTable.add MaxNum NewSymbolTable "aaa" 1).tab [("bbb", 2)]).2
        (((2 <<< numLen) % 2 ^ 64)
          ||| uint64OfInt64 (Symbol.Num (SymbolTable.add MaxNum NewSymbolTable "aaa" 1).sym))
      = ("", false) :=
  (ordinals_not_shared MaxNum (by decide) NewSymbolTable Reachable.fresh 0 0 "" "" "aaa" 1 2
    [("bbb", 2)]).2 (by decide) (by decide) (by decide) (by decide)

end Symtab
